import Mathlib

/-!
Shallow embedding of the `russtr8ts` Str8ts solver (Rust sources
`src/str8ts.rs`, `src/str8ts_solver.rs`, `src/macros.rs`) and proofs of the
specification claims about it.

The grid model, the cell-value conversions, the compartment finder, the
MIP-variable and constraint construction of `Str8ts::solve`, and the
solution extractor are translated from the Rust source.  The external SCIP
solver itself is abstracted as an oracle outcome; everything the claims
speak about (variable bounds, constraint shapes, compartment structure,
panics, extraction) is modelled from the source code.
-/

namespace Russtr8ts

/-- `CellColor` from `src/str8ts.rs`: `enum CellColor { White, Black }`,
with `White` the `#[default]`. -/
inductive CellColor where
  | White
  | Black
deriving DecidableEq, Repr

/-- `CellValue` from `src/str8ts.rs`: `enum CellValue { Empty, One, ..., Nine }`,
with `Empty` the `#[default]`. -/
inductive CellValue where
  | Empty
  | One
  | Two
  | Three
  | Four
  | Five
  | Six
  | Seven
  | Eight
  | Nine
deriving DecidableEq, Repr, Fintype

namespace CellValue

/-- `impl From<CellValue> for usize` (identical to `impl From<CellValue> for u8`)
from `src/str8ts.rs`: digits map to their number, `Empty` to `0`. -/
def toNat : CellValue → Nat
  | .One => 1
  | .Two => 2
  | .Three => 3
  | .Four => 4
  | .Five => 5
  | .Six => 6
  | .Seven => 7
  | .Eight => 8
  | .Nine => 9
  | _ => 0

/-- `impl From<usize> for CellValue` (identical to `impl From<u8> for CellValue`)
from `src/str8ts.rs`: `1..=9` map to the digit, everything else to `Empty`. -/
def fromNat : Nat → CellValue
  | 1 => .One
  | 2 => .Two
  | 3 => .Three
  | 4 => .Four
  | 5 => .Five
  | 6 => .Six
  | 7 => .Seven
  | 8 => .Eight
  | 9 => .Nine
  | _ => .Empty

/-- `impl PartialOrd for CellValue` from `src/str8ts.rs`: comparison of the
`u8` images.  Used by the encoder's `next_value < value` skip check. -/
def vlt (a b : CellValue) : Bool := a.toNat < b.toNat

/-- The value sequence produced by `CellValue::into_iter(false)`
(`src/str8ts.rs`): the nine digits `One, ..., Nine` in order, without `Empty`. -/
def listNoEmpty : List CellValue :=
  [.One, .Two, .Three, .Four, .Five, .Six, .Seven, .Eight, .Nine]

end CellValue

/-- `Cell` from `src/str8ts.rs`: a `(color, value)` pair.  The Rust
`Cell::default()` is `(White, Empty)`. -/
structure Cell where
  color : CellColor
  value : CellValue
deriving DecidableEq, Repr

/-- `Cell::default()`: `#[default]` color `White`, value `Empty`. -/
def Cell.default : Cell := ⟨.White, .Empty⟩

/-- `Str8ts` from `src/str8ts.rs`: the 9×9 `cells` array, addressed
`cells[row][col]`. -/
def Grid : Type := Fin 9 → Fin 9 → Cell

/-- `trans_index_to_row_col!` from `src/macros.rs`: `(index / 9, index % 9)`. -/
def trans_index_to_row_col (index : Nat) : Nat × Nat := (index / 9, index % 9)

/-- `trans_row_col_to_index!` from `src/macros.rs`: `row * 9 + col`. -/
def trans_row_col_to_index (row col : Nat) : Nat := row * 9 + col

/-- `Str8ts::get_cell`: `self.cells[row][col]`. -/
def get_cell (g : Grid) (row col : Fin 9) : Cell := g row col

/-- `Str8ts::get_cell_by_index`: translate the flat index via
`trans_index_to_row_col!` and read the cell. -/
def get_cell_by_index (g : Grid) (index : Fin 81) : Cell :=
  get_cell g ⟨(trans_index_to_row_col index.val).1, by
      have := index.isLt; simp only [trans_index_to_row_col]; omega⟩
    ⟨(trans_index_to_row_col index.val).2, by
      simp only [trans_index_to_row_col]; omega⟩

/-- `Str8ts::new()`: every cell `Cell::default() = (White, Empty)`. -/
def str8tsNew : Grid := fun _ _ => Cell.default

/-- `Str8ts::set_cell_by_index` (via `set_cell`): overwrite the cell at
`(index / 9, index % 9)`. -/
def set_cell_by_index (g : Grid) (index : Fin 81) (cell : Cell) : Grid :=
  fun r c =>
    if r.val = (trans_index_to_row_col index.val).1 ∧
        c.val = (trans_index_to_row_col index.val).2 then cell else g r c

/-- One step of the `Str8tsIterator` (from `src/str8ts.rs`): starting at
state `index`, as long as `index < 81` yield `get_cell_by_index` and
increment.  `str8tsIterList g i` is the whole remaining stream of the
iterator from state `i`. -/
def str8tsIterList (g : Grid) (i : Nat) : List Cell :=
  if h : i < 81 then get_cell_by_index g ⟨i, h⟩ :: str8tsIterList g (i + 1) else []
termination_by 81 - i

/-! ## Compartment finder (`find_compartments`, `find_compartments_rows`,
`find_compartments_cols` from `src/str8ts_solver.rs`)

The Rust scan keeps a running `compartment` list while walking the cells of
one line: a `White` cell appends its flat index (`push_back`), a `Black`
cell emits the running compartment when it is non-empty (`push_back` to the
compartment list and `clear`), and at the end of the line a non-empty
running compartment is emitted.  `segStep`/`segment` are that scan over one
line of `(flat index, color)` pairs; `rowCells`/`colCells` are the cell
sequences the row loop (columns `0..9` inside row) and the column loop
(rows `0..9` inside column) walk over. -/

/-- One step of the compartment scan: the accumulator is
`(emitted compartments, running compartment)`. -/
def segStep (acc : List (List Nat) × List Nat) (p : Nat × CellColor) :
    List (List Nat) × List Nat :=
  match p.2 with
  | .Black => if acc.2.isEmpty then acc else (acc.1 ++ [acc.2], [])
  | .White => (acc.1, acc.2 ++ [p.1])

/-- The compartment scan over one line, emitting the trailing running
compartment when non-empty. -/
def segment (ps : List (Nat × CellColor)) : List (List Nat) :=
  let r := ps.foldl segStep ([], [])
  if r.2.isEmpty then r.1 else r.1 ++ [r.2]

/-- The cells of row `r` in column order, as `(flat index, color)` pairs:
what the row loop of `find_compartments_rows` walks over. -/
def rowCells (g : Grid) (r : Fin 9) : List (Nat × CellColor) :=
  (List.finRange 9).map
    (fun c => (trans_row_col_to_index r.val c.val, (get_cell g r c).color))

/-- The cells of column `c` in row order, as `(flat index, color)` pairs:
what the column loop of `find_compartments_cols` walks over. -/
def colCells (g : Grid) (c : Fin 9) : List (Nat × CellColor) :=
  (List.finRange 9).map
    (fun r => (trans_row_col_to_index r.val c.val, (get_cell g r c).color))

/-- `find_compartments_rows`: scan every row, collecting its compartments. -/
def find_compartments_rows (g : Grid) : List (List Nat) :=
  (List.finRange 9).flatMap (fun r => segment (rowCells g r))

/-- `find_compartments_cols`: scan every column, collecting its compartments. -/
def find_compartments_cols (g : Grid) : List (List Nat) :=
  (List.finRange 9).flatMap (fun c => segment (colCells g c))

/-- `find_compartments`: all row-compartments followed by all
column-compartments. -/
def find_compartments (g : Grid) : List (List Nat) :=
  find_compartments_rows g ++ find_compartments_cols g

/-- The flat indices of the white cells of a line, in line order. -/
def whiteIndices (ps : List (Nat × CellColor)) : List Nat :=
  (ps.filter (fun p => decide (p.2 = CellColor.White))).map Prod.fst

/-! ## Constraint encoder (`Str8ts::solve`, `src/str8ts_solver.rs`)

The encoder's variables are modelled as association lists from variable
identity to the `(lower, upper)` bounds passed to `model.add_var` (the
objective coefficient is always `0` and the type always `Binary`, so the
bounds are the only varying data).  Constraint 5 ("each compartment has
adjacent values") is modelled as the list of linear constraints passed to
`model.add_cons`, in construction order. -/

/-- Identity of a model variable: `x_{index}_{value}` or
`y_{compartment}_{value}`. -/
inductive VarKey where
  | x (index : Nat) (value : CellValue)
  | y (comp : Nat) (value : CellValue)
deriving DecidableEq, Repr

/-- The `(lower, upper)` bounds `Str8ts::solve` gives `x_{i}_{k}` for a white
cell `cell` and digit `value`: the three-way `match cell.value` on lines
37–76 — `Empty ⇒ [0,1]`, `v if v == value ⇒ [1,1]`, otherwise `[0,0]`. -/
def xBounds (cell : Cell) (value : CellValue) : ℚ × ℚ :=
  if cell.value = CellValue.Empty then (0, 1)
  else if cell.value = value then (1, 1) else (0, 0)

/-- The `x` variables created by `Str8ts::solve` (lines 31–79): one per
(white cell, digit) pair, in iteration order; nothing for black cells. -/
def xVars (g : Grid) : List (VarKey × (ℚ × ℚ)) :=
  (List.finRange 81).flatMap (fun i =>
    if (get_cell_by_index g i).color = CellColor.White then
      CellValue.listNoEmpty.map
        (fun v => (VarKey.x i.val v, xBounds (get_cell_by_index g i) v))
    else [])

/-- The `(lower, upper)` bounds `Str8ts::solve` gives `y_{c}_{k}` (lines
82–109): `[0,1]` when `compartment.len() <= 9 - k + 1`, else `[0,0]`. -/
def yBounds (len : Nat) (value : CellValue) : ℚ × ℚ :=
  if len ≤ 9 - value.toNat + 1 then (0, 1) else (0, 0)

/-- The `y` variables created by `Str8ts::solve` (lines 80–109): one per
(compartment, digit) pair, always created, with `yBounds`. -/
def yVars (compartments : List (List Nat)) : List (VarKey × (ℚ × ℚ)) :=
  compartments.enum.flatMap (fun p =>
    CellValue.listNoEmpty.map (fun v => (VarKey.y p.1 v, yBounds p.2.length v)))

/-- One linear constraint as passed to `model.add_cons`: variables,
coefficients, lower and upper bound (`none` = infinite).  The `tag` mirrors
the constraint-name components `c_5_{c}_{k}_{next_value}`. -/
structure LinCons where
  tag : Nat × CellValue × CellValue
  vars : List VarKey
  coeffs : List ℚ
  lb : Option ℚ
  ub : Option ℚ
deriving DecidableEq, Repr

/-- The single constraint `c_5_{ci}_{v}_{nv}` of lines 294–300:
`sum_{i in c} x_{i}_{nv} - y_{ci}_{v} >= 0` (coefficients all `1` and a
final `-1`, bounds `[0, +inf)`). -/
def mkCons5 (ci : Nat) (c : List Nat) (v nv : CellValue) : LinCons :=
  { tag := (ci, v, nv)
    vars := c.map (fun i => VarKey.x i nv) ++ [VarKey.y ci v]
    coeffs := List.replicate c.length (1 : ℚ) ++ [-1]
    lb := some 0
    ub := none }

/-- The constraints of group 5 contributed by compartment `ci` (lines
267–304): the `value` loop runs over `1..9` and `break`s at the first
`value` with `compartment.len() > 9 - value + 1` (`takeWhile`); the inner
`next_value` loop skips values below `value` (`filter`) and stops after
`compartment.len()` additions (`take`). -/
def cons5For (ci : Nat) (c : List Nat) : List LinCons :=
  (CellValue.listNoEmpty.takeWhile
      (fun v => decide (c.length ≤ 9 - v.toNat + 1))).flatMap (fun v =>
    ((CellValue.listNoEmpty.filter (fun nv => !(nv.vlt v))).take c.length).map
      (fun nv => mkCons5 ci c v nv))

/-- All constraints of group 5, over the enumerated compartments. -/
def cons5 (compartments : List (List Nat)) : List LinCons :=
  compartments.enum.flatMap (fun p => cons5For p.1 p.2)

/-! ## Duplicate-clue check, solver outcome, and solution extraction
(`Str8ts::solve`, `src/str8ts_solver.rs`)

The external SCIP call (`model.solve()`, line 307) is abstracted as a
`SolveOutcome`: either the `Optimal` status together with the assignment
read back by `solution.val`, or any other status.  Everything before and
after that call — the duplicate-black-clue `assert!`s of constraint groups
2b/3b, the early `return None`, the extraction loop, and the final
non-empty `assert!` — is modelled from the source; a Rust panic becomes
`Except.error` carrying the panic message. -/

/-- Shared body of the black-clue collection loops (lines 152–159 for a row,
lines 214–221 for a column): walk the nine cells of one line and collect the
values of `Black` cells whose value is not `Empty`, in line order. -/
def blackValuesLine (cell : Fin 9 → Cell) : List CellValue :=
  (List.finRange 9).filterMap (fun j =>
    if (cell j).color = CellColor.Black ∧ (cell j).value ≠ CellValue.Empty
    then some (cell j).value else none)

/-- The non-Empty black-cell values of row `row` (lines 152–159). -/
def blackValuesRow (g : Grid) (row : Fin 9) : List CellValue :=
  blackValuesLine (fun col => get_cell g row col)

/-- The non-Empty black-cell values of column `col` (lines 214–221). -/
def blackValuesCol (g : Grid) (col : Fin 9) : List CellValue :=
  blackValuesLine (fun row => get_cell g row col)

/-- The first row whose black-clue list has a duplicate — the row whose
`assert!` on lines 161–169 fires, if any. -/
def duplicateRow (g : Grid) : Option (Fin 9) :=
  (List.finRange 9).find? (fun r => !decide ((blackValuesRow g r).Nodup))

/-- The first column whose black-clue list has a duplicate — the column
whose `assert!` on lines 223–231 fires, if any. -/
def duplicateCol (g : Grid) : Option (Fin 9) :=
  (List.finRange 9).find? (fun c => !decide ((blackValuesCol g c).Nodup))

/-- Abstraction of the external MIP solver: either `Status::Optimal` with
the assignment read back from the best solution, or any other status. -/
inductive SolveOutcome where
  | optimal (sol : VarKey → ℚ)
  | notOptimal

/-- The inner extraction loop for one white cell (lines 320–325): for each
digit in order, if its `x` value is at least `0.5`, overwrite the cell at
`index` with `Cell::new(White, value)`. -/
def extractStep (sol : VarKey → ℚ) (index : Fin 81) (acc : Grid) : Grid :=
  CellValue.listNoEmpty.foldl
    (fun acc2 v =>
      if 1 / 2 ≤ sol (VarKey.x index.val v)
      then set_cell_by_index acc2 index ⟨CellColor.White, v⟩
      else acc2) acc

/-- The extraction loop of lines 317–329: starting from `Str8ts::new()`
(all cells `(White, Empty)`), walk all 81 cells of the input; copy black
cells unchanged, and fill white cells from the solution values. -/
def extractGrid (g : Grid) (sol : VarKey → ℚ) : Grid :=
  (List.finRange 81).foldl
    (fun acc i =>
      if (get_cell_by_index g i).color = CellColor.White
      then extractStep sol i acc
      else set_cell_by_index acc i (get_cell_by_index g i))
    str8tsNew

/-- The first index failing the final consistency `assert!` of lines
332–340 (a white cell of the extracted grid left `Empty`), if any. -/
def emptyWhiteIndex (g : Grid) : Option (Fin 81) :=
  (List.finRange 81).find? (fun i =>
    decide ((get_cell_by_index g i).color = CellColor.White
      ∧ (get_cell_by_index g i).value = CellValue.Empty))

/-- Control flow of `Str8ts::solve` around the solver call, with Rust
panics modelled as `Except.error` carrying the panic message: the row
duplicate asserts fire first (while constraint group 2b is built), then the
column duplicate asserts (group 3b), then the model is solved — a
non-`Optimal` status returns `None` — and finally the extracted grid is
checked for empty white cells before being returned. -/
def solveModel (g : Grid) (outcome : SolveOutcome) : Except String (Option Grid) :=
  match duplicateRow g with
  | some r =>
      Except.error ("There are duplicate values in the black cells of row "
        ++ toString r.val ++ "!")
  | none =>
    match duplicateCol g with
    | some c =>
        Except.error ("There are duplicate values in the black cells of column "
          ++ toString c.val ++ "!")
    | none =>
      match outcome with
      | .notOptimal => Except.ok none
      | .optimal sol =>
        match emptyWhiteIndex (extractGrid g sol) with
        | some i =>
            Except.error ("Cell with index " ++ toString i.val
              ++ " has no value!")
        | none => Except.ok (some (extractGrid g sol))

/-- The condition of claim C6: some row or column holds two distinct Black
cells fixed to the same non-Empty digit. -/
def hasDuplicateBlackPair (g : Grid) : Prop :=
  (∃ r c1 c2 : Fin 9, c1 ≠ c2
    ∧ (get_cell g r c1).color = CellColor.Black
    ∧ (get_cell g r c2).color = CellColor.Black
    ∧ (get_cell g r c1).value ≠ CellValue.Empty
    ∧ (get_cell g r c1).value = (get_cell g r c2).value)
  ∨ (∃ c r1 r2 : Fin 9, r1 ≠ r2
    ∧ (get_cell g r1 c).color = CellColor.Black
    ∧ (get_cell g r2 c).color = CellColor.Black
    ∧ (get_cell g r1 c).value ≠ CellValue.Empty
    ∧ (get_cell g r1 c).value = (get_cell g r2 c).value)

/-- A concrete malformed grid: two Black cells in row 0 both fixed to 1,
everything else White and Empty. -/
def gridDupBlack : Grid := fun r c =>
  if r = 0 ∧ (c = 0 ∨ c = 1) then ⟨CellColor.Black, CellValue.One⟩
  else ⟨CellColor.White, CellValue.Empty⟩

/-- A concrete solver assignment: every `x` variable for digit 1 is `1`,
everything else `0`. -/
def solAllOnes : VarKey → ℚ := fun k =>
  match k with
  | .x _ v => if v = CellValue.One then 1 else 0
  | .y _ _ => 0

/-- The flat index of the cell at `(row, col)`, as a `Fin 81`. -/
def posIdx (r c : Fin 9) : Fin 81 :=
  ⟨r.val * 9 + c.val, by have hr := r.isLt; have hc := c.isLt; omega⟩

lemma str8tsIterList_length (g : Grid) (i : Nat) :
    (str8tsIterList g i).length = 81 - i := by
  unfold str8tsIterList
  split
  · rw [List.length_cons, str8tsIterList_length g (i + 1)]
    omega
  · simp only [List.length_nil]
    omega
termination_by 81 - i

lemma str8tsIterList_get (g : Grid) (i j : Nat) (h : i + j < 81) :
    (str8tsIterList g i)[j]? = some (get_cell_by_index g ⟨i + j, h⟩) := by
  unfold str8tsIterList
  rw [dif_pos (by omega : i < 81)]
  cases j with
  | zero => simp
  | succ j' =>
      rw [List.getElem?_cons_succ,
        str8tsIterList_get g (i + 1) j' (by omega)]
      congr 1
      apply congrArg
      exact Fin.mk_eq_mk.mpr (by omega)

lemma segStep_flatten (acc : List (List Nat) × List Nat) (p : Nat × CellColor) :
    (segStep acc p).1.flatten ++ (segStep acc p).2
      = acc.1.flatten ++ acc.2 ++ whiteIndices [p] := by
  rcases p with ⟨i, color⟩
  cases color with
  | White => simp [segStep, whiteIndices]
  | Black =>
      simp only [segStep, whiteIndices, List.filter_cons]
      by_cases h : acc.2.isEmpty
      · rcases acc with ⟨done, run⟩
        simp_all [List.isEmpty_iff]
      · simp [h, List.flatten_append]

lemma foldl_segStep_flatten (ps : List (Nat × CellColor)) :
    ∀ acc : List (List Nat) × List Nat,
      (ps.foldl segStep acc).1.flatten ++ (ps.foldl segStep acc).2
        = acc.1.flatten ++ acc.2 ++ whiteIndices ps := by
  induction ps with
  | nil => intro acc; simp [whiteIndices]
  | cons p t ih =>
      intro acc
      rw [List.foldl_cons, ih (segStep acc p), segStep_flatten]
      rcases p with ⟨i, color⟩
      cases color <;> simp [whiteIndices, List.filter_cons]

/-- The concatenation of the compartments of one line is exactly its white
cells' indices, in line order. -/
lemma segment_flatten (ps : List (Nat × CellColor)) :
    (segment ps).flatten = whiteIndices ps := by
  have h := foldl_segStep_flatten ps ([], [])
  simp only [List.flatten_nil, List.nil_append] at h
  unfold segment
  by_cases he : (ps.foldl segStep ([], [])).2.isEmpty
  · rw [if_pos he]
    rw [List.isEmpty_iff] at he
    simp only [he, List.append_nil] at h
    exact h
  · rw [if_neg he, List.flatten_append]
    simpa using h

lemma foldl_segStep_nonempty (ps : List (Nat × CellColor)) :
    ∀ acc : List (List Nat) × List Nat,
      (∀ c ∈ acc.1, c ≠ []) →
      ∀ c ∈ (ps.foldl segStep acc).1, c ≠ [] := by
  induction ps with
  | nil => intro acc h; exact h
  | cons p t ih =>
      intro acc h
      rw [List.foldl_cons]
      apply ih
      rcases p with ⟨i, color⟩
      cases color with
      | White => exact h
      | Black =>
          simp only [segStep]
          by_cases he : acc.2.isEmpty
          · simpa [he] using h
          · simp only [he, if_false]
            intro c hc
            rcases List.mem_append.mp hc with hc | hc
            · exact h c hc
            · rw [List.mem_singleton.mp hc]
              exact fun hnil => by simp [hnil] at he

/-- Every emitted compartment is non-empty. -/
lemma segment_nonempty (ps : List (Nat × CellColor)) :
    ∀ c ∈ segment ps, c ≠ [] := by
  unfold segment
  by_cases he : (ps.foldl segStep ([], [])).2.isEmpty
  · rw [if_pos he]
    exact foldl_segStep_nonempty ps ([], []) (by simp)
  · rw [if_neg he]
    intro c hc
    rcases List.mem_append.mp hc with hc | hc
    · exact foldl_segStep_nonempty ps ([], []) (by simp) c hc
    · rw [List.mem_singleton.mp hc]
      exact fun hnil => by simp [hnil] at he

lemma foldl_segStep_sorted (ps : List (Nat × CellColor)) :
    ∀ acc : List (List Nat) × List Nat,
      (ps.map Prod.fst).Pairwise (· < ·) →
      (∀ c ∈ acc.1, c.Pairwise (· < ·)) →
      acc.2.Pairwise (· < ·) →
      (∀ a ∈ acc.2, ∀ q ∈ ps, a < q.1) →
      (∀ c ∈ (ps.foldl segStep acc).1, c.Pairwise (· < ·))
        ∧ (ps.foldl segStep acc).2.Pairwise (· < ·) := by
  induction ps with
  | nil => intro acc _ h1 h2 _; exact ⟨h1, h2⟩
  | cons p t ih =>
      intro acc hps h1 h2 h3
      rw [List.map_cons, List.pairwise_cons] at hps
      rw [List.foldl_cons]
      rcases p with ⟨i, color⟩
      cases color with
      | White =>
          simp only [segStep]
          refine ih _ hps.2 h1 ?_ ?_
          · rw [List.pairwise_append]
            refine ⟨h2, List.pairwise_singleton _ _, ?_⟩
            intro a ha b hb
            rw [List.mem_singleton.mp hb]
            exact h3 a ha (i, .White) (List.mem_cons_self _ _)
          · intro a ha q hq
            rcases List.mem_append.mp ha with ha | ha
            · exact h3 a ha q (List.mem_cons_of_mem _ hq)
            · rw [List.mem_singleton.mp ha]
              exact hps.1 q.1 (List.mem_map_of_mem Prod.fst hq)
      | Black =>
          simp only [segStep]
          by_cases he : acc.2.isEmpty
          · rw [if_pos he]
            refine ih _ hps.2 h1 h2 ?_
            intro a ha q hq
            exact h3 a ha q (List.mem_cons_of_mem _ hq)
          · rw [if_neg he]
            refine ih _ hps.2 ?_ List.Pairwise.nil ?_
            · intro c hc
              rcases List.mem_append.mp hc with hc | hc
              · exact h1 c hc
              · rw [List.mem_singleton.mp hc]; exact h2
            · intro a ha; simp at ha

/-- Every emitted compartment is strictly increasing in the flat index,
provided the line's indices are. -/
lemma segment_sorted (ps : List (Nat × CellColor))
    (hps : (ps.map Prod.fst).Pairwise (· < ·)) :
    ∀ c ∈ segment ps, c.Pairwise (· < ·) := by
  have h := foldl_segStep_sorted ps ([], []) hps (by simp)
    List.Pairwise.nil (by simp)
  unfold segment
  by_cases he : (ps.foldl segStep ([], [])).2.isEmpty
  · rw [if_pos he]; exact h.1
  · rw [if_neg he]
    intro c hc
    rcases List.mem_append.mp hc with hc | hc
    · exact h.1 c hc
    · rw [List.mem_singleton.mp hc]; exact h.2

/-- Compartment members come from the scanned line. -/
lemma segment_subset (ps : List (Nat × CellColor)) :
    ∀ c ∈ segment ps, ∀ a ∈ c, a ∈ ps.map Prod.fst := by
  intro c hc a ha
  have : a ∈ (segment ps).flatten := List.mem_flatten.mpr ⟨c, hc, ha⟩
  rw [segment_flatten] at this
  rcases List.mem_map.mp this with ⟨p, hp, rfl⟩
  exact List.mem_map_of_mem Prod.fst (List.mem_of_mem_filter hp)

lemma foldl_segStep_allwhite (ps : List (Nat × CellColor)) :
    ∀ acc : List (List Nat) × List Nat,
      (∀ p ∈ ps, p.2 = CellColor.White) →
      ps.foldl segStep acc = (acc.1, acc.2 ++ ps.map Prod.fst) := by
  induction ps with
  | nil => intro acc _; simp
  | cons p t ih =>
      intro acc hw
      rw [List.foldl_cons]
      have hp : p.2 = CellColor.White := hw p (List.mem_cons_self _ _)
      have hstep : segStep acc p = (acc.1, acc.2 ++ [p.1]) := by
        simp [segStep, hp]
      rw [hstep, ih _ (fun q hq => hw q (List.mem_cons_of_mem _ hq))]
      simp

/-- An all-white line yields exactly one compartment: the whole line. -/
lemma segment_allwhite (ps : List (Nat × CellColor)) (hne : ps ≠ [])
    (hw : ∀ p ∈ ps, p.2 = CellColor.White) :
    segment ps = [ps.map Prod.fst] := by
  unfold segment
  rw [foldl_segStep_allwhite ps ([], []) hw]
  have : (ps.map Prod.fst) ≠ [] := by
    intro h; exact hne (List.map_eq_nil_iff.mp h)
  simp [List.isEmpty_iff, this]

lemma foldl_segStep_allblack (ps : List (Nat × CellColor)) :
    ∀ acc : List (List Nat) × List Nat,
      (∀ p ∈ ps, p.2 = CellColor.Black) →
      acc.2 = [] →
      ps.foldl segStep acc = acc := by
  induction ps with
  | nil => intro acc _ _; rfl
  | cons p t ih =>
      intro acc hb hacc
      rw [List.foldl_cons]
      have hp : p.2 = CellColor.Black := hb p (List.mem_cons_self _ _)
      have hstep : segStep acc p = acc := by
        simp [segStep, hp, hacc]
      rw [hstep]
      exact ih acc (fun q hq => hb q (List.mem_cons_of_mem _ hq)) hacc

/-- An all-black line yields no compartments. -/
lemma segment_allblack (ps : List (Nat × CellColor))
    (hb : ∀ p ∈ ps, p.2 = CellColor.Black) :
    segment ps = [] := by
  unfold segment
  rw [foldl_segStep_allblack ps ([], []) hb rfl]
  rfl

lemma count_flatten_flatMap {A : Type} (l : List A) (f : A → List (List Nat))
    (i : Nat) :
    ((l.flatMap f).flatten).count i
      = (l.map (fun a => ((f a).flatten).count i)).sum := by
  induction l with
  | nil => rfl
  | cons a t ih =>
      rw [List.flatMap_cons, List.flatten_append, List.count_append, ih,
        List.map_cons, List.sum_cons]

lemma sum_map_indicator {A : Type} [DecidableEq A] (l : List A) (a : A)
    (h : l.Nodup) (ha : a ∈ l) :
    (l.map (fun x => if x = a then (1 : Nat) else 0)).sum = 1 := by
  induction l with
  | nil => cases ha
  | cons b t ih =>
      rw [List.map_cons, List.sum_cons]
      rw [List.nodup_cons] at h
      by_cases hb : b = a
      · subst hb
        rw [if_pos rfl]
        have hz : (t.map (fun x => if x = b then (1 : Nat) else 0)).sum = 0 := by
          apply List.sum_eq_zero
          intro x hx
          rcases List.mem_map.mp hx with ⟨y, hy, rfl⟩
          rw [if_neg]
          intro he
          subst he
          exact h.1 hy
        rw [hz]
      · have ha' : a ∈ t := by
          rcases List.mem_cons.mp ha with h | h
          · exact absurd h.symm hb
          · exact h
        rw [if_neg hb, ih h.2 ha']

lemma whiteIndices_rowCells (g : Grid) (r : Fin 9) :
    whiteIndices (rowCells g r)
      = ((List.finRange 9).filter
            (fun c => decide ((get_cell g r c).color = CellColor.White))).map
          (fun c => trans_row_col_to_index r.val c.val) := by
  unfold whiteIndices rowCells
  rw [List.filter_map, List.map_map]
  rfl

lemma whiteIndices_colCells (g : Grid) (c : Fin 9) :
    whiteIndices (colCells g c)
      = ((List.finRange 9).filter
            (fun r => decide ((get_cell g r c).color = CellColor.White))).map
          (fun r => trans_row_col_to_index r.val c.val) := by
  unfold whiteIndices colCells
  rw [List.filter_map, List.map_map]
  rfl

lemma count_whiteIndices_row (g : Grid) (r r0 c0 : Fin 9) :
    (whiteIndices (rowCells g r)).count (trans_row_col_to_index r0.val c0.val)
      = if r = r0 ∧ (get_cell g r0 c0).color = CellColor.White then 1 else 0 := by
  rw [whiteIndices_rowCells]
  by_cases hr : r = r0
  · subst hr
    have hinj : Function.Injective
        (fun c : Fin 9 => trans_row_col_to_index r.val c.val) := by
      intro a b hab
      simp only [trans_row_col_to_index] at hab
      exact Fin.ext (by omega)
    rw [List.count_map_of_injective _ _ hinj]
    by_cases hw : (get_cell g r c0).color = CellColor.White
    · rw [if_pos ⟨rfl, hw⟩, List.count_filter (by simpa using hw),
        List.count_eq_one_of_mem (List.nodup_finRange 9) (List.mem_finRange c0)]
    · rw [if_neg (by tauto)]
      apply List.count_eq_zero.mpr
      intro hmem
      exact hw (by simpa using (List.mem_filter.mp hmem).2)
  · rw [if_neg (by tauto)]
    apply List.count_eq_zero.mpr
    intro hmem
    rcases List.mem_map.mp hmem with ⟨c, _, hc⟩
    simp only [trans_row_col_to_index] at hc
    have h1 := c.isLt
    have h2 := c0.isLt
    exact hr (Fin.ext (by omega))

lemma count_whiteIndices_col (g : Grid) (c r0 c0 : Fin 9) :
    (whiteIndices (colCells g c)).count (trans_row_col_to_index r0.val c0.val)
      = if c = c0 ∧ (get_cell g r0 c0).color = CellColor.White then 1 else 0 := by
  rw [whiteIndices_colCells]
  by_cases hc : c = c0
  · subst hc
    have hinj : Function.Injective
        (fun r : Fin 9 => trans_row_col_to_index r.val c.val) := by
      intro a b hab
      simp only [trans_row_col_to_index] at hab
      exact Fin.ext (by omega)
    rw [List.count_map_of_injective _ _ hinj]
    by_cases hw : (get_cell g r0 c).color = CellColor.White
    · rw [if_pos ⟨rfl, hw⟩, List.count_filter (by simpa using hw),
        List.count_eq_one_of_mem (List.nodup_finRange 9) (List.mem_finRange r0)]
    · rw [if_neg (by tauto)]
      apply List.count_eq_zero.mpr
      intro hmem
      exact hw (by simpa using (List.mem_filter.mp hmem).2)
  · rw [if_neg (by tauto)]
    apply List.count_eq_zero.mpr
    intro hmem
    rcases List.mem_map.mp hmem with ⟨r, _, hr⟩
    simp only [trans_row_col_to_index] at hr
    have h1 := r0.isLt
    have h2 := c0.isLt
    have h3 := c.isLt
    exact hc (Fin.ext (by omega))

lemma count_flatten_rows (g : Grid) (r0 c0 : Fin 9) :
    (find_compartments_rows g).flatten.count (trans_row_col_to_index r0.val c0.val)
      = if (get_cell g r0 c0).color = CellColor.White then 1 else 0 := by
  unfold find_compartments_rows
  rw [count_flatten_flatMap]
  have hmap : (List.finRange 9).map
        (fun r => ((segment (rowCells g r)).flatten).count
          (trans_row_col_to_index r0.val c0.val))
      = (List.finRange 9).map
        (fun r => if r = r0 ∧ (get_cell g r0 c0).color = CellColor.White
          then 1 else 0) := by
    apply List.map_congr_left
    intro r _
    rw [segment_flatten]
    exact count_whiteIndices_row g r r0 c0
  rw [hmap]
  by_cases hw : (get_cell g r0 c0).color = CellColor.White
  · rw [if_pos hw]
    have : (List.finRange 9).map
          (fun r => if r = r0 ∧ (get_cell g r0 c0).color = CellColor.White
            then (1 : Nat) else 0)
        = (List.finRange 9).map (fun r => if r = r0 then (1 : Nat) else 0) := by
      apply List.map_congr_left
      intro r _
      by_cases h : r = r0 <;> simp [h, hw]
    rw [this]
    exact sum_map_indicator _ r0 (List.nodup_finRange 9) (List.mem_finRange r0)
  · rw [if_neg hw]
    apply List.sum_eq_zero
    intro x hx
    rcases List.mem_map.mp hx with ⟨r, _, rfl⟩
    rw [if_neg (by tauto)]

lemma count_flatten_cols (g : Grid) (r0 c0 : Fin 9) :
    (find_compartments_cols g).flatten.count (trans_row_col_to_index r0.val c0.val)
      = if (get_cell g r0 c0).color = CellColor.White then 1 else 0 := by
  unfold find_compartments_cols
  rw [count_flatten_flatMap]
  have hmap : (List.finRange 9).map
        (fun c => ((segment (colCells g c)).flatten).count
          (trans_row_col_to_index r0.val c0.val))
      = (List.finRange 9).map
        (fun c => if c = c0 ∧ (get_cell g r0 c0).color = CellColor.White
          then 1 else 0) := by
    apply List.map_congr_left
    intro c _
    rw [segment_flatten]
    exact count_whiteIndices_col g c r0 c0
  rw [hmap]
  by_cases hw : (get_cell g r0 c0).color = CellColor.White
  · rw [if_pos hw]
    have : (List.finRange 9).map
          (fun c => if c = c0 ∧ (get_cell g r0 c0).color = CellColor.White
            then (1 : Nat) else 0)
        = (List.finRange 9).map (fun c => if c = c0 then (1 : Nat) else 0) := by
      apply List.map_congr_left
      intro c _
      by_cases h : c = c0 <;> simp [h, hw]
    rw [this]
    exact sum_map_indicator _ c0 (List.nodup_finRange 9) (List.mem_finRange c0)
  · rw [if_neg hw]
    apply List.sum_eq_zero
    intro x hx
    rcases List.mem_map.mp hx with ⟨c, _, rfl⟩
    rw [if_neg (by tauto)]

lemma countP_not_mem_flatten (ll : List (List Nat)) (i : Nat)
    (h : i ∉ ll.flatten) :
    ll.countP (fun c => decide (i ∈ c)) = 0 := by
  rw [List.countP_eq_zero]
  intro c hc
  simp only [decide_eq_true_eq]
  intro hic
  exact h (List.mem_flatten.mpr ⟨c, hc, hic⟩)

lemma countP_mem_of_count_flatten_one (ll : List (List Nat)) (i : Nat)
    (h : ll.flatten.count i = 1) :
    ll.countP (fun c => decide (i ∈ c)) = 1 := by
  induction ll with
  | nil => simp at h
  | cons c t ih =>
      rw [List.flatten_cons, List.count_append] at h
      rw [List.countP_cons]
      by_cases hic : i ∈ c
      · have hc1 : 0 < c.count i := List.count_pos_iff.mpr hic
        have ht : t.flatten.count i = 0 := by omega
        have hz : t.countP (fun c => decide (i ∈ c)) = 0 :=
          countP_not_mem_flatten t i (List.count_eq_zero.mp ht)
        simp [hz, hic]
      · have hc0 : c.count i = 0 := List.count_eq_zero.mpr hic
        have ht : t.flatten.count i = 1 := by omega
        simp [ih ht, hic]

/-- C4: every White cell's flat index appears in exactly one row-compartment
and exactly one column-compartment (hence exactly twice in the concatenation
of all compartments); no Black cell's index appears in any compartment; and
every compartment is non-empty. -/
theorem C4_compartment_coverage (g : Grid) (r0 c0 : Fin 9) :
    ((get_cell g r0 c0).color = CellColor.White →
        (find_compartments_rows g).countP
            (fun comp => decide (trans_row_col_to_index r0.val c0.val ∈ comp)) = 1
        ∧ (find_compartments_cols g).countP
            (fun comp => decide (trans_row_col_to_index r0.val c0.val ∈ comp)) = 1
        ∧ (find_compartments g).flatten.count
            (trans_row_col_to_index r0.val c0.val) = 2)
    ∧ ((get_cell g r0 c0).color = CellColor.Black →
        ∀ comp ∈ find_compartments g,
          trans_row_col_to_index r0.val c0.val ∉ comp)
    ∧ (∀ comp ∈ find_compartments g, comp ≠ []) := by
  refine ⟨fun hw => ⟨?_, ?_, ?_⟩, fun hb => ?_, ?_⟩
  · exact countP_mem_of_count_flatten_one _ _
      (by rw [count_flatten_rows, if_pos hw])
  · exact countP_mem_of_count_flatten_one _ _
      (by rw [count_flatten_cols, if_pos hw])
  · unfold find_compartments
    rw [List.flatten_append, List.count_append, count_flatten_rows,
      count_flatten_cols, if_pos hw]
  · intro comp hcomp hmem
    have hnw : (get_cell g r0 c0).color ≠ CellColor.White := by
      rw [hb]; intro h; cases h
    have hin : trans_row_col_to_index r0.val c0.val ∈ (find_compartments g).flatten :=
      List.mem_flatten.mpr ⟨comp, hcomp, hmem⟩
    have : 0 < (find_compartments g).flatten.count
        (trans_row_col_to_index r0.val c0.val) := List.count_pos_iff.mpr hin
    rw [find_compartments, List.flatten_append, List.count_append,
      count_flatten_rows, count_flatten_cols, if_neg hnw] at this
    omega
  · intro comp hcomp
    rcases List.mem_append.mp hcomp with h | h
    · rcases List.mem_flatMap.mp h with ⟨r, _, hseg⟩
      exact segment_nonempty _ comp hseg
    · rcases List.mem_flatMap.mp h with ⟨c, _, hseg⟩
      exact segment_nonempty _ comp hseg

/-- Witness for C4 on the all-white default grid at cell `(0,0)`. -/
theorem C4_compartment_coverage_witness :
    (find_compartments_rows str8tsNew).countP
        (fun comp => decide (trans_row_col_to_index 0 0 ∈ comp)) = 1
    ∧ (find_compartments_cols str8tsNew).countP
        (fun comp => decide (trans_row_col_to_index 0 0 ∈ comp)) = 1
    ∧ (find_compartments str8tsNew).flatten.count (trans_row_col_to_index 0 0) = 2 :=
  (C4_compartment_coverage str8tsNew 0 0).1 rfl

/-- C5: indices inside a row-compartment are in strictly increasing column
order and inside a column-compartment in strictly increasing row order; an
all-Black line contributes zero compartments and an all-White line exactly
one compartment — the whole line of 9 cells. -/
theorem C5_compartment_order (g : Grid) :
    (∀ comp ∈ find_compartments_rows g,
        comp.Pairwise (fun a b => a % 9 < b % 9))
    ∧ (∀ comp ∈ find_compartments_cols g,
        comp.Pairwise (fun a b => a / 9 < b / 9))
    ∧ (∀ r : Fin 9, (∀ c : Fin 9, (get_cell g r c).color = CellColor.Black) →
        segment (rowCells g r) = [])
    ∧ (∀ r : Fin 9, (∀ c : Fin 9, (get_cell g r c).color = CellColor.White) →
        segment (rowCells g r)
          = [(List.finRange 9).map (fun c => trans_row_col_to_index r.val c.val)]
        ∧ ((List.finRange 9).map
            (fun c => trans_row_col_to_index r.val c.val)).length = 9)
    ∧ (∀ c : Fin 9, (∀ r : Fin 9, (get_cell g r c).color = CellColor.Black) →
        segment (colCells g c) = [])
    ∧ (∀ c : Fin 9, (∀ r : Fin 9, (get_cell g r c).color = CellColor.White) →
        segment (colCells g c)
          = [(List.finRange 9).map (fun r => trans_row_col_to_index r.val c.val)]
        ∧ ((List.finRange 9).map
            (fun r => trans_row_col_to_index r.val c.val)).length = 9) := by
  refine ⟨?_, ?_, ?_, ?_, ?_, ?_⟩
  · intro comp hcomp
    rcases List.mem_flatMap.mp hcomp with ⟨r, _, hseg⟩
    have hfst : ((rowCells g r).map Prod.fst).Pairwise (· < ·) := by
      unfold rowCells
      rw [List.map_map, List.pairwise_map]
      refine (List.pairwise_lt_finRange 9).imp ?_
      intro a b hab
      simp only [trans_row_col_to_index, Function.comp]
      have := Fin.lt_iff_val_lt_val.mp hab
      omega
    have hsort := segment_sorted _ hfst comp hseg
    refine hsort.imp_of_mem ?_
    intro a b ha hb hab
    -- both indices lie in row r: of the form r*9 + col with col < 9
    have hha : ∃ ca : Fin 9, a = r.val * 9 + ca.val := by
      have := segment_subset _ comp hseg a ha
      unfold rowCells at this
      rw [List.map_map] at this
      rcases List.mem_map.mp this with ⟨ca, _, hca⟩
      exact ⟨ca, by simpa [trans_row_col_to_index, Function.comp] using hca.symm⟩
    have hhb : ∃ cb : Fin 9, b = r.val * 9 + cb.val := by
      have := segment_subset _ comp hseg b hb
      unfold rowCells at this
      rw [List.map_map] at this
      rcases List.mem_map.mp this with ⟨cb, _, hcb⟩
      exact ⟨cb, by simpa [trans_row_col_to_index, Function.comp] using hcb.symm⟩
    rcases hha with ⟨ca, rfl⟩
    rcases hhb with ⟨cb, rfl⟩
    have := ca.isLt
    have := cb.isLt
    omega
  · intro comp hcomp
    rcases List.mem_flatMap.mp hcomp with ⟨c, _, hseg⟩
    have hfst : ((colCells g c).map Prod.fst).Pairwise (· < ·) := by
      unfold colCells
      rw [List.map_map, List.pairwise_map]
      refine (List.pairwise_lt_finRange 9).imp ?_
      intro a b hab
      simp only [trans_row_col_to_index, Function.comp]
      have := Fin.lt_iff_val_lt_val.mp hab
      omega
    have hsort := segment_sorted _ hfst comp hseg
    refine hsort.imp_of_mem ?_
    intro a b ha hb hab
    have hha : ∃ ra : Fin 9, a = ra.val * 9 + c.val := by
      have := segment_subset _ comp hseg a ha
      unfold colCells at this
      rw [List.map_map] at this
      rcases List.mem_map.mp this with ⟨ra, _, hra⟩
      exact ⟨ra, by simpa [trans_row_col_to_index, Function.comp] using hra.symm⟩
    have hhb : ∃ rb : Fin 9, b = rb.val * 9 + c.val := by
      have := segment_subset _ comp hseg b hb
      unfold colCells at this
      rw [List.map_map] at this
      rcases List.mem_map.mp this with ⟨rb, _, hrb⟩
      exact ⟨rb, by simpa [trans_row_col_to_index, Function.comp] using hrb.symm⟩
    rcases hha with ⟨ra, rfl⟩
    rcases hhb with ⟨rb, rfl⟩
    have := ra.isLt
    have := rb.isLt
    have := c.isLt
    omega
  · intro r hb
    apply segment_allblack
    intro p hp
    rcases List.mem_map.mp hp with ⟨c, _, rfl⟩
    exact hb c
  · intro r hw
    constructor
    · have h := segment_allwhite (rowCells g r) (by simp [rowCells]) (by
        intro p hp
        rcases List.mem_map.mp hp with ⟨c, _, rfl⟩
        exact hw c)
      rw [h]
      unfold rowCells
      rw [List.map_map]
      rfl
    · simp
  · intro c hb
    apply segment_allblack
    intro p hp
    rcases List.mem_map.mp hp with ⟨r, _, rfl⟩
    exact hb r
  · intro c hw
    constructor
    · have h := segment_allwhite (colCells g c) (by simp [colCells]) (by
        intro p hp
        rcases List.mem_map.mp hp with ⟨r, _, rfl⟩
        exact hw r)
      rw [h]
      unfold colCells
      rw [List.map_map]
      rfl
    · simp

/-- Witness for C5 on the all-white default grid: row 0 yields one
compartment holding all of row 0. -/
theorem C5_compartment_order_witness :
    segment (rowCells str8tsNew 0)
        = [(List.finRange 9).map (fun c => trans_row_col_to_index 0 c.val)]
    ∧ ((List.finRange 9).map (fun c => trans_row_col_to_index 0 c.val)).length
        = 9 :=
  (C5_compartment_order str8tsNew).2.2.2.1 0 (fun _ => rfl)

/-- C9: converting any number in `1..=9` to `CellValue` and back is the
identity; every number outside `1..=9` converts to `CellValue.Empty`, and
`Empty` converts back to `0` (out-of-range inputs are silently mapped to
`Empty` rather than failing). -/
theorem C9_cellvalue_conversion (n : Nat) :
    (1 ≤ n → n ≤ 9 → (CellValue.fromNat n).toNat = n)
    ∧ ((n < 1 ∨ 9 < n) → CellValue.fromNat n = CellValue.Empty)
    ∧ CellValue.Empty.toNat = 0 := by
  refine ⟨fun h1 h9 => ?_, fun hout => ?_, rfl⟩
  · interval_cases n <;> rfl
  · rcases hout with h | h
    · interval_cases n
      rfl
    · have heq : n = (n - 10) + 10 := by omega
      rw [heq]
      rfl

/-- Witness for C9 at the concrete inputs 5 (in range) and 42 (out of range). -/
theorem C9_cellvalue_conversion_witness :
    (CellValue.fromNat 5).toNat = 5 ∧ CellValue.fromNat 42 = CellValue.Empty :=
  ⟨(C9_cellvalue_conversion 5).1 (by decide) (by decide),
   (C9_cellvalue_conversion 42).2.1 (by omega)⟩

/-- C10: flat-index addressing is a bijection — for every index in `[0,81)`,
converting to `(row, col)` by `(index / 9, index % 9)` and back by
`row * 9 + col` returns the same index — and the `Str8ts` iterator yields
exactly 81 cells, the cell at flat index `j` being `cells[j / 9][j % 9]`,
in increasing flat-index (row-major) order. -/
theorem C10_flat_index_iterator (g : Grid) (j : Fin 81) :
    trans_row_col_to_index (trans_index_to_row_col j.val).1
        (trans_index_to_row_col j.val).2 = j.val
    ∧ (str8tsIterList g 0).length = 81
    ∧ (str8tsIterList g 0)[j.val]? =
        some (g ⟨j.val / 9, by have := j.isLt; omega⟩
                ⟨j.val % 9, by have := j.isLt; omega⟩) := by
  refine ⟨?_, ?_, ?_⟩
  · simp only [trans_row_col_to_index, trans_index_to_row_col]
    omega
  · rw [str8tsIterList_length]
  · rw [str8tsIterList_get g 0 j.val (by have := j.isLt; omega)]
    simp only [get_cell_by_index, get_cell, trans_index_to_row_col, Nat.zero_add]

/-! ## Variable-creation claims -/

lemma countP_flatMap_zero {A B : Type} (l : List A) (g : A → List B)
    (p : B → Bool) (h : ∀ a ∈ l, (g a).countP p = 0) :
    (l.flatMap g).countP p = 0 := by
  induction l with
  | nil => rfl
  | cons b t ih =>
      rw [List.flatMap_cons, List.countP_append,
        h b (List.mem_cons_self _ _), ih (fun a ha => h a (List.mem_cons_of_mem _ ha))]

lemma countP_flatMap_single {A B : Type} [DecidableEq A] (l : List A)
    (g : A → List B) (p : B → Bool) (a0 : A) (hnd : l.Nodup) (ha0 : a0 ∈ l)
    (hz : ∀ a ∈ l, a ≠ a0 → (g a).countP p = 0) :
    (l.flatMap g).countP p = (g a0).countP p := by
  induction l with
  | nil => cases ha0
  | cons b t ih =>
      rw [List.flatMap_cons, List.countP_append]
      rw [List.nodup_cons] at hnd
      by_cases hb : b = a0
      · subst hb
        rw [countP_flatMap_zero t g p
          (fun a ha => hz a (List.mem_cons_of_mem _ ha)
            (fun he => hnd.1 (he ▸ ha)))]
        omega
      · have ha0' : a0 ∈ t := by
          rcases List.mem_cons.mp ha0 with h | h
          · exact absurd h.symm hb
          · exact h
        rw [hz b (List.mem_cons_self _ _) hb,
          ih hnd.2 ha0' (fun a ha hne => hz a (List.mem_cons_of_mem _ ha) hne)]
        omega

lemma nodup_enum {A : Type} (l : List A) : l.enum.Nodup :=
  List.Nodup.of_map Prod.fst (List.nodup_enum_map_fst l)

lemma get_mem_enum {A : Type} (l : List A) (n : Nat) (hn : n < l.length) :
    (n, l.get ⟨n, hn⟩) ∈ l.enum :=
  List.mem_enum_iff_get?.mpr (List.get?_eq_get hn)

lemma snd_of_mem_enum {A : Type} {l : List A} {p : Nat × A} (hp : p ∈ l.enum) :
    ∃ h : p.1 < l.length, l.get ⟨p.1, h⟩ = p.2 := by
  have := List.mem_enum_iff_get?.mp hp
  rcases List.get?_eq_some.mp this with ⟨h, hget⟩
  exact ⟨h, hget⟩

lemma countP_listNoEmpty_eq_one {v : CellValue}
    (hv : v ∈ CellValue.listNoEmpty) (p : CellValue → Bool)
    (hp : ∀ w ∈ CellValue.listNoEmpty, p w = true ↔ w = v) :
    CellValue.listNoEmpty.countP p = 1 := by
  have h1 : CellValue.listNoEmpty.countP p
      = CellValue.listNoEmpty.countP (fun w => w == v) := by
    apply List.countP_congr
    intro w hw
    rw [hp w hw]
    cases instDecidableEqCellValue w v with
    | isTrue h => simp [h]
    | isFalse h => simp [h]
  rw [h1]
  have : CellValue.listNoEmpty.countP (fun w => w == v)
      = CellValue.listNoEmpty.count v := rfl
  rw [this]
  fin_cases hv <;> decide

/-- Membership description of the x-variable list. -/
lemma mem_xVars (g : Grid) (e : VarKey × (ℚ × ℚ)) :
    e ∈ xVars g ↔ ∃ (i : Fin 81) (v : CellValue), v ∈ CellValue.listNoEmpty
      ∧ (get_cell_by_index g i).color = CellColor.White
      ∧ e = (VarKey.x i.val v, xBounds (get_cell_by_index g i) v) := by
  unfold xVars
  rw [List.mem_flatMap]
  constructor
  · rintro ⟨i, _, hmem⟩
    by_cases hw : (get_cell_by_index g i).color = CellColor.White
    · rw [if_pos hw] at hmem
      rcases List.mem_map.mp hmem with ⟨v, hv, rfl⟩
      exact ⟨i, v, hv, hw, rfl⟩
    · rw [if_neg hw] at hmem
      cases hmem
  · rintro ⟨i, v, hv, hw, rfl⟩
    refine ⟨i, List.mem_finRange i, ?_⟩
    rw [if_pos hw]
    exact List.mem_map_of_mem _ hv

/-- C2: for every White cell at flat index `i` and every digit `k` in `1..9`
exactly one binary variable `x_{i}_{k}` is created, with bounds `[0,1]` for
an Empty input value, `[1,1]` when the input value equals `k`, and `[0,0]`
for a different non-Empty input value; no `x` variable is created for any
Black cell. -/
theorem C2_x_variables (g : Grid) (i : Fin 81) (v : CellValue)
    (hv : v ∈ CellValue.listNoEmpty) :
    ((get_cell_by_index g i).color = CellColor.White →
        (xVars g).countP (fun e => decide (e.1 = VarKey.x i.val v)) = 1
        ∧ (∀ b : ℚ × ℚ, (VarKey.x i.val v, b) ∈ xVars g ↔
            b = xBounds (get_cell_by_index g i) v))
    ∧ ((get_cell_by_index g i).color = CellColor.Black →
        (xVars g).countP (fun e => decide (e.1 = VarKey.x i.val v)) = 0)
    ∧ ((get_cell_by_index g i).value = CellValue.Empty →
        xBounds (get_cell_by_index g i) v = (0, 1))
    ∧ ((get_cell_by_index g i).value = v →
        xBounds (get_cell_by_index g i) v = (1, 1))
    ∧ ((get_cell_by_index g i).value ≠ CellValue.Empty →
        (get_cell_by_index g i).value ≠ v →
        xBounds (get_cell_by_index g i) v = (0, 0)) := by
  refine ⟨fun hw => ⟨?_, ?_⟩, fun hb => ?_, fun he => ?_, fun hsame => ?_,
    fun hne hdiff => ?_⟩
  · unfold xVars
    rw [countP_flatMap_single (List.finRange 81) _ _ i (List.nodup_finRange 81)
      (List.mem_finRange i) ?hz]
    case hz =>
      intro i' _ hne
      by_cases hw' : (get_cell_by_index g i').color = CellColor.White
      · rw [if_pos hw', List.countP_map, List.countP_eq_zero]
        intro w _
        simp only [Function.comp, decide_eq_true_eq, VarKey.x.injEq]
        intro hcontra
        exact hne (Fin.ext hcontra.1)
      · rw [if_neg hw']
        rfl
    rw [if_pos hw, List.countP_map]
    apply countP_listNoEmpty_eq_one hv
    intro w _
    simp [Function.comp, VarKey.x.injEq]
  · intro b
    constructor
    · intro hmem
      rcases (mem_xVars g _).mp hmem with ⟨i', v', hv', hw', heq⟩
      rw [Prod.mk.injEq, VarKey.x.injEq] at heq
      have hii : i' = i := Fin.ext heq.1.1.symm
      subst hii
      rw [heq.1.2.symm] at heq
      exact heq.2
    · intro hb
      subst hb
      exact (mem_xVars g _).mpr ⟨i, v, hv, hw, rfl⟩
  · unfold xVars
    apply countP_flatMap_zero
    intro i' _
    by_cases hw' : (get_cell_by_index g i').color = CellColor.White
    · rw [if_pos hw', List.countP_map, List.countP_eq_zero]
      intro w _
      simp only [Function.comp, decide_eq_true_eq, VarKey.x.injEq]
      intro hcontra
      have : i' = i := Fin.ext hcontra.1
      subst this
      rw [hb] at hw'
      cases hw'
    · rw [if_neg hw']
      rfl
  · simp only [xBounds]
    rw [if_pos he]
  · have hvne : v ≠ CellValue.Empty := by
      fin_cases hv <;> decide
    simp only [xBounds]
    rw [hsame, if_neg hvne, if_pos rfl]
  · simp only [xBounds]
    rw [if_neg hne, if_neg hdiff]

/-- Membership description of the y-variable list. -/
lemma mem_yVars (cs : List (List Nat)) (e : VarKey × (ℚ × ℚ)) :
    e ∈ yVars cs ↔ ∃ (ci : Nat) (hci : ci < cs.length) (v : CellValue),
      v ∈ CellValue.listNoEmpty
      ∧ e = (VarKey.y ci v, yBounds (cs.get ⟨ci, hci⟩).length v) := by
  unfold yVars
  rw [List.mem_flatMap]
  constructor
  · rintro ⟨p, hp, hmem⟩
    rcases List.mem_map.mp hmem with ⟨v, hv, rfl⟩
    rcases snd_of_mem_enum hp with ⟨hlt, hget⟩
    exact ⟨p.1, hlt, v, hv, by rw [hget]⟩
  · rintro ⟨ci, hci, v, hv, rfl⟩
    exact ⟨(ci, cs.get ⟨ci, hci⟩), get_mem_enum cs ci hci,
      List.mem_map_of_mem _ hv⟩

/-- C3: for every compartment `c` and digit `k` in `1..9` exactly one binary
variable `y_{c}_{k}` is created — with bounds `[0,1]` when
`len(c) <= 9-k+1` and bounds `[0,0]` (created, not omitted) otherwise; a
length-1 compartment gets nine viable `y` variables and a length-9
compartment only admits `k = 1`. -/
theorem C3_y_variables (cs : List (List Nat)) (ci : Nat) (hci : ci < cs.length)
    (v : CellValue) (hv : v ∈ CellValue.listNoEmpty) :
    (yVars cs).countP (fun e => decide (e.1 = VarKey.y ci v)) = 1
    ∧ (∀ b : ℚ × ℚ, (VarKey.y ci v, b) ∈ yVars cs ↔
        b = yBounds (cs.get ⟨ci, hci⟩).length v)
    ∧ ((cs.get ⟨ci, hci⟩).length ≤ 9 - v.toNat + 1 →
        yBounds (cs.get ⟨ci, hci⟩).length v = (0, 1))
    ∧ (9 - v.toNat + 1 < (cs.get ⟨ci, hci⟩).length →
        yBounds (cs.get ⟨ci, hci⟩).length v = (0, 0))
    ∧ ((cs.get ⟨ci, hci⟩).length = 1 →
        yBounds (cs.get ⟨ci, hci⟩).length v = (0, 1))
    ∧ ((cs.get ⟨ci, hci⟩).length = 9 →
        (yBounds (cs.get ⟨ci, hci⟩).length v = (0, 1) ↔ v = CellValue.One)) := by
  refine ⟨?_, ?_, fun hle => ?_, fun hgt => ?_, fun h1 => ?_, fun h9 => ?_⟩
  · unfold yVars
    rw [countP_flatMap_single cs.enum _ _ (ci, cs.get ⟨ci, hci⟩)
      (nodup_enum cs) (get_mem_enum cs ci hci) ?hz]
    case hz =>
      rintro ⟨n, c⟩ hp hne
      rcases snd_of_mem_enum hp with ⟨hlt, hget⟩
      rw [List.countP_map, List.countP_eq_zero]
      intro w _
      simp only [Function.comp, decide_eq_true_eq, VarKey.y.injEq]
      rintro ⟨rfl, rfl⟩
      refine hne ?_
      have hgc : cs.get ⟨n, hci⟩ = c := hget
      rw [hgc]
    rw [List.countP_map]
    apply countP_listNoEmpty_eq_one hv
    intro w _
    simp [Function.comp, VarKey.y.injEq]
  · intro b
    constructor
    · intro hmem
      rcases (mem_yVars cs _).mp hmem with ⟨ci', hci', v', hv', heq⟩
      rw [Prod.mk.injEq, VarKey.y.injEq] at heq
      rcases heq with ⟨⟨rfl, rfl⟩, rfl⟩
      rfl
    · intro hb
      subst hb
      exact (mem_yVars cs _).mpr ⟨ci, hci, v, hv, rfl⟩
  · rw [yBounds, if_pos hle]
  · rw [yBounds, if_neg (by omega)]
  · rw [yBounds, if_pos (by
      have : 1 ≤ v.toNat ∧ v.toNat ≤ 9 := by fin_cases hv <;> decide
      omega)]
  · rw [h9]
    constructor
    · intro hb
      by_contra hne
      have : 9 - v.toNat + 1 < 9 := by
        have h19 : 1 ≤ v.toNat ∧ v.toNat ≤ 9 := by fin_cases hv <;> decide
        have h2 : 2 ≤ v.toNat := by
          rcases Nat.lt_or_ge v.toNat 2 with h | h
          · exfalso
            have : v.toNat = 1 := by omega
            apply hne
            fin_cases hv <;> simp_all [CellValue.toNat]
          · exact h
        omega
      rw [yBounds, if_neg (by omega)] at hb
      have : (0 : ℚ) = 1 := congrArg Prod.snd hb
      norm_num at this
    · rintro rfl
      rw [yBounds, if_pos (by decide)]

/-- Witness for C2 on the all-white default grid, cell 0, digit 1. -/
theorem C2_x_variables_witness :
    (xVars str8tsNew).countP
        (fun e => decide (e.1 = VarKey.x 0 CellValue.One)) = 1
    ∧ (∀ b : ℚ × ℚ, (VarKey.x 0 CellValue.One, b) ∈ xVars str8tsNew ↔
        b = xBounds (get_cell_by_index str8tsNew 0) CellValue.One) :=
  (C2_x_variables str8tsNew 0 CellValue.One (by decide)).1 rfl

/-- Witness for C3 on a single length-1 compartment, digit 1. -/
theorem C3_y_variables_witness :
    (yVars [[0]]).countP
        (fun e => decide (e.1 = VarKey.y 0 CellValue.One)) = 1 :=
  (C3_y_variables [[0]] 0 (by decide) CellValue.One (by decide)).1

/-! ## Constraint group 5 (C1) -/

lemma countP_flatMap_sum {A B : Type} (l : List A) (f : A → List B)
    (p : B → Bool) :
    (l.flatMap f).countP p = (l.map (fun a => (f a).countP p)).sum := by
  induction l with
  | nil => rfl
  | cons a t ih =>
      rw [List.flatMap_cons, List.countP_append, List.map_cons, List.sum_cons,
        ih]

lemma mem_cons5For {ci : Nat} {c : List Nat} {e : LinCons}
    (he : e ∈ cons5For ci c) :
    ∃ v nv : CellValue, e = mkCons5 ci c v nv := by
  unfold cons5For at he
  rcases List.mem_flatMap.mp he with ⟨v, _, hmem⟩
  rcases List.mem_map.mp hmem with ⟨nv, _, rfl⟩
  exact ⟨v, nv, rfl⟩

lemma cons5For_countP_tag (c : List Nat) (ci : Nat) :
    ∀ v ∈ CellValue.listNoEmpty, ∀ nv ∈ CellValue.listNoEmpty,
      (cons5For ci c).countP (fun e => decide (e.tag = (ci, v, nv)))
        = if c.length ≤ 9 - v.toNat + 1 ∧ v.toNat ≤ nv.toNat
            ∧ nv.toNat ≤ v.toNat + c.length - 1 then 1 else 0 := by
  intro v hv nv hnv
  unfold cons5For
  rw [countP_flatMap_sum]
  have hmap : ((CellValue.listNoEmpty.takeWhile
          (fun w => decide (c.length ≤ 9 - w.toNat + 1))).map
        (fun w => ((((CellValue.listNoEmpty.filter
            (fun x => !(x.vlt w))).take c.length).map
          (fun x => mkCons5 ci c w x)).countP
            (fun e => decide (e.tag = (ci, v, nv))))))
      = ((CellValue.listNoEmpty.takeWhile
          (fun w => decide (c.length ≤ 9 - w.toNat + 1))).map
        (fun w => (((CellValue.listNoEmpty.filter
            (fun x => !(x.vlt w))).take c.length).countP
          (fun x => decide (w = v ∧ x = nv))))) := by
    apply List.map_congr_left
    intro w _
    rw [List.countP_map]
    apply List.countP_congr
    intro x _
    simp [Function.comp, mkCons5, Prod.ext_iff]
  rw [hmap]
  clear hmap
  generalize c.length = L
  rcases le_or_lt L 10 with hL | hL
  · revert hv hnv
    revert v nv
    interval_cases L <;> decide
  · have htw : CellValue.listNoEmpty.takeWhile
        (fun w => decide (L ≤ 9 - w.toNat + 1)) = [] := by
      unfold CellValue.listNoEmpty
      rw [List.takeWhile_cons, if_neg (by
        simp only [CellValue.toNat, decide_eq_true_eq]
        omega)]
    rw [htw, if_neg (by omega)]
    rfl

lemma cons5For_countP_v (c : List Nat) (ci : Nat) :
    ∀ v ∈ CellValue.listNoEmpty,
      (cons5For ci c).countP (fun e => decide (e.tag.1 = ci ∧ e.tag.2.1 = v))
        = if c.length ≤ 9 - v.toNat + 1 then c.length else 0 := by
  intro v hv
  unfold cons5For
  rw [countP_flatMap_sum]
  have hmap : ((CellValue.listNoEmpty.takeWhile
          (fun w => decide (c.length ≤ 9 - w.toNat + 1))).map
        (fun w => ((((CellValue.listNoEmpty.filter
            (fun x => !(x.vlt w))).take c.length).map
          (fun x => mkCons5 ci c w x)).countP
            (fun e => decide (e.tag.1 = ci ∧ e.tag.2.1 = v)))))
      = ((CellValue.listNoEmpty.takeWhile
          (fun w => decide (c.length ≤ 9 - w.toNat + 1))).map
        (fun w => (((CellValue.listNoEmpty.filter
            (fun x => !(x.vlt w))).take c.length).countP
          (fun _ => decide (w = v))))) := by
    apply List.map_congr_left
    intro w _
    rw [List.countP_map]
    apply List.countP_congr
    intro x _
    simp [Function.comp, mkCons5]
  rw [hmap]
  clear hmap
  generalize c.length = L
  rcases le_or_lt L 10 with hL | hL
  · revert hv
    revert v
    interval_cases L <;> decide
  · have htw : CellValue.listNoEmpty.takeWhile
        (fun w => decide (L ≤ 9 - w.toNat + 1)) = [] := by
      unfold CellValue.listNoEmpty
      rw [List.takeWhile_cons, if_neg (by
        simp only [CellValue.toNat, decide_eq_true_eq]
        omega)]
    rw [htw, if_neg (by omega)]
    rfl

lemma cons5_countP_reduce (cs : List (List Nat)) (ci : Nat)
    (hci : ci < cs.length) (p : LinCons → Bool)
    (hp : ∀ e : LinCons, p e = true → e.tag.1 = ci) :
    (cons5 cs).countP p = (cons5For ci (cs.get ⟨ci, hci⟩)).countP p := by
  unfold cons5
  rw [countP_flatMap_single cs.enum _ p (ci, cs.get ⟨ci, hci⟩)
    (nodup_enum cs) (get_mem_enum cs ci hci) ?_]
  rintro ⟨n, c'⟩ hmem hne
  rw [List.countP_eq_zero]
  intro e he
  intro hcontra
  have htag : e.tag.1 = ci := hp e hcontra
  rcases mem_cons5For he with ⟨v', nv', rfl⟩
  have hn : n = ci := htag
  subst hn
  rcases snd_of_mem_enum hmem with ⟨hlt, hget⟩
  refine hne ?_
  have hgc : cs.get ⟨n, hci⟩ = c' := hget
  rw [hgc]

/-- C1: for every compartment `c` of length `L` and every candidate minimum
digit `k` with `L <= 9-k+1`, exactly `L` linking constraints are added, one
for each value `v` in `[k, k+L-1]`, each of the form
`(sum over cells i in c of x_{i}_{v}) - y_{c}_{k} >= 0`; and no linking
constraint is added for a `k` with `L > 9-k+1` or for a `v` outside
`[k, k+L-1]`. -/
theorem C1_linking_constraints (cs : List (List Nat)) (ci : Nat)
    (hci : ci < cs.length) (v nv : CellValue)
    (hv : v ∈ CellValue.listNoEmpty) (hnv : nv ∈ CellValue.listNoEmpty) :
    ((cs.get ⟨ci, hci⟩).length ≤ 9 - v.toNat + 1 →
        ((cons5 cs).countP (fun e => decide (e.tag = (ci, v, nv)))
            = if v.toNat ≤ nv.toNat
                ∧ nv.toNat ≤ v.toNat + (cs.get ⟨ci, hci⟩).length - 1
              then 1 else 0)
        ∧ (cons5 cs).countP (fun e => decide (e.tag.1 = ci ∧ e.tag.2.1 = v))
            = (cs.get ⟨ci, hci⟩).length)
    ∧ (9 - v.toNat + 1 < (cs.get ⟨ci, hci⟩).length →
        (cons5 cs).countP (fun e => decide (e.tag.1 = ci ∧ e.tag.2.1 = v)) = 0)
    ∧ (∀ e ∈ cons5 cs, e.tag = (ci, v, nv) →
        e.vars = (cs.get ⟨ci, hci⟩).map (fun idx => VarKey.x idx nv)
            ++ [VarKey.y ci v]
        ∧ e.coeffs = List.replicate (cs.get ⟨ci, hci⟩).length (1 : ℚ) ++ [-1]
        ∧ e.lb = some 0 ∧ e.ub = none) := by
  refine ⟨fun hle => ⟨?_, ?_⟩, fun hgt => ?_, ?_⟩
  · rw [cons5_countP_reduce cs ci hci _ (fun e he => by
      have := decide_eq_true_eq.mp he
      rw [this]),
      cons5For_countP_tag _ ci v hv nv hnv]
    by_cases hr : v.toNat ≤ nv.toNat
        ∧ nv.toNat ≤ v.toNat + (cs.get ⟨ci, hci⟩).length - 1
    · rw [if_pos ⟨hle, hr.1, hr.2⟩, if_pos hr]
    · rw [if_neg (by tauto), if_neg hr]
  · rw [cons5_countP_reduce cs ci hci _ (fun e he =>
      (decide_eq_true_eq.mp he).1),
      cons5For_countP_v _ ci v hv, if_pos hle]
  · rw [cons5_countP_reduce cs ci hci _ (fun e he =>
      (decide_eq_true_eq.mp he).1),
      cons5For_countP_v _ ci v hv, if_neg (by omega)]
  · intro e he htag
    unfold cons5 at he
    rcases List.mem_flatMap.mp he with ⟨p, hp, hein⟩
    rcases mem_cons5For hein with ⟨v', nv', rfl⟩
    have htag' : (p.1, v', nv') = (ci, v, nv) := htag
    rw [Prod.mk.injEq, Prod.mk.injEq] at htag'
    rcases htag' with ⟨h1, h2, h3⟩
    rcases snd_of_mem_enum hp with ⟨hlt, hget⟩
    subst h1 h2 h3
    have hgc : cs.get ⟨p.1, hci⟩ = p.2 := hget
    rw [mkCons5, hgc]
    exact ⟨rfl, rfl, rfl, rfl⟩

/-- Witness for C1: a single compartment `[5]` of length 1, `k = v = 1`. -/
theorem C1_linking_constraints_witness :
    ((cons5 [[5]]).countP
        (fun e => decide (e.tag = (0, CellValue.One, CellValue.One)))
      = if CellValue.One.toNat ≤ CellValue.One.toNat
          ∧ CellValue.One.toNat ≤ CellValue.One.toNat
              + (([[5]] : List (List Nat)).get ⟨0, by decide⟩).length - 1
        then 1 else 0)
    ∧ (cons5 [[5]]).countP
        (fun e => decide (e.tag.1 = 0 ∧ e.tag.2.1 = CellValue.One))
      = (([[5]] : List (List Nat)).get ⟨0, by decide⟩).length :=
  (C1_linking_constraints [[5]] 0 (by decide) CellValue.One CellValue.One
    (by decide) (by decide)).1 (by decide)

/-! ## Solution extraction (C7) -/

lemma get_cell_by_index_posIdx (g : Grid) (r c : Fin 9) :
    get_cell_by_index g (posIdx r c) = g r c := by
  rcases r with ⟨rv, hr⟩
  rcases c with ⟨cv, hc⟩
  unfold get_cell_by_index get_cell posIdx trans_index_to_row_col
  have h1 : (rv * 9 + cv) / 9 = rv := by omega
  have h2 : (rv * 9 + cv) % 9 = cv := by omega
  simp only [h1, h2]

lemma foldl_setcell_apply (sol : VarKey → ℚ) (i : Fin 81) (l : List CellValue)
    (acc : Grid) (r c : Fin 9) :
    (l.foldl (fun acc2 v =>
        if 1 / 2 ≤ sol (VarKey.x i.val v)
        then set_cell_by_index acc2 i ⟨CellColor.White, v⟩
        else acc2) acc) r c
      = if r.val = i.val / 9 ∧ c.val = i.val % 9
        then l.foldl (fun cell v =>
            if 1 / 2 ≤ sol (VarKey.x i.val v)
            then ⟨CellColor.White, v⟩ else cell) (acc r c)
        else acc r c := by
  induction l generalizing acc with
  | nil =>
      by_cases h : r.val = i.val / 9 ∧ c.val = i.val % 9 <;> simp [h]
  | cons v t ih =>
      simp only [List.foldl_cons]
      by_cases hp : 1 / 2 ≤ sol (VarKey.x i.val v)
      · rw [if_pos hp, if_pos hp, ih]
        by_cases hpos : r.val = i.val / 9 ∧ c.val = i.val % 9
        · rw [if_pos hpos, if_pos hpos]
          congr 1
          simp [set_cell_by_index, trans_index_to_row_col, hpos.1, hpos.2]
        · rw [if_neg hpos, if_neg hpos]
          simp only [set_cell_by_index, trans_index_to_row_col]
          rw [if_neg hpos]
      · rw [if_neg hp, if_neg hp]
        exact ih acc

lemma extractGrid_loop (g : Grid) (sol : VarKey → ℚ) :
    ∀ (l : List (Fin 81)) (acc : Grid), l.Nodup →
      (∀ r c : Fin 9,
        (posIdx r c ∈ l → acc r c = Cell.default)
        ∧ (posIdx r c ∉ l →
            acc r c = (if (g r c).color = CellColor.White
              then CellValue.listNoEmpty.foldl
                  (fun cell v =>
                    if 1 / 2 ≤ sol (VarKey.x (r.val * 9 + c.val) v)
                    then ⟨CellColor.White, v⟩ else cell) Cell.default
              else g r c))) →
      ∀ r c : Fin 9,
        (l.foldl (fun acc i =>
            if (get_cell_by_index g i).color = CellColor.White
            then extractStep sol i acc
            else set_cell_by_index acc i (get_cell_by_index g i)) acc) r c
          = (if (g r c).color = CellColor.White
              then CellValue.listNoEmpty.foldl
                  (fun cell v =>
                    if 1 / 2 ≤ sol (VarKey.x (r.val * 9 + c.val) v)
                    then ⟨CellColor.White, v⟩ else cell) Cell.default
              else g r c) := by
  intro l
  induction l with
  | nil =>
      intro acc _ hacc r c
      exact (hacc r c).2 (by simp)
  | cons i t ih =>
      intro acc hnd hacc r c
      rw [List.foldl_cons]
      rw [List.nodup_cons] at hnd
      refine ih _ hnd.2 ?_ r c
      intro r' c'
      have hval : posIdx r' c' = i ↔ (r'.val = i.val / 9 ∧ c'.val = i.val % 9) := by
        constructor
        · intro h
          have := congrArg Fin.val h
          simp only [posIdx] at this
          have hr' := r'.isLt
          have hc' := c'.isLt
          omega
        · intro h
          apply Fin.ext
          simp only [posIdx]
          have := i.isLt
          omega
      constructor
      · intro hmem
        have hne : posIdx r' c' ≠ i := fun he => hnd.1 (he ▸ hmem)
        have hnotpos : ¬ (r'.val = i.val / 9 ∧ c'.val = i.val % 9) :=
          fun h => hne (hval.mpr h)
        by_cases hw : (get_cell_by_index g i).color = CellColor.White
        · rw [if_pos hw]
          unfold extractStep
          rw [foldl_setcell_apply, if_neg hnotpos]
          exact (hacc r' c').1 (List.mem_cons_of_mem _ hmem)
        · rw [if_neg hw]
          simp only [set_cell_by_index, trans_index_to_row_col]
          rw [if_neg hnotpos]
          exact (hacc r' c').1 (List.mem_cons_of_mem _ hmem)
      · intro hmem
        by_cases heq : posIdx r' c' = i
        · have hpos : r'.val = i.val / 9 ∧ c'.val = i.val % 9 := hval.mp heq
          have hcell : get_cell_by_index g i = g r' c' := by
            rw [← heq, get_cell_by_index_posIdx]
          have hkey : i.val = r'.val * 9 + c'.val := by
            rw [← heq]
            rfl
          have hdef : acc r' c' = Cell.default :=
            (hacc r' c').1 (heq ▸ List.mem_cons_self _ _)
          by_cases hw : (g r' c').color = CellColor.White
          · rw [if_pos (by rw [hcell]; exact hw), if_pos hw]
            unfold extractStep
            rw [foldl_setcell_apply, if_pos hpos, hdef, hkey]
          · rw [if_neg (by rw [hcell]; exact hw), if_neg hw]
            simp only [set_cell_by_index, trans_index_to_row_col]
            rw [if_pos hpos, hcell]
        · have hnotpos : ¬ (r'.val = i.val / 9 ∧ c'.val = i.val % 9) :=
            fun h => heq (hval.mpr h)
          have hnotin : posIdx r' c' ∉ i :: t := by
            intro h
            rcases List.mem_cons.mp h with h | h
            · exact heq h
            · exact hmem h
          by_cases hw : (get_cell_by_index g i).color = CellColor.White
          · rw [if_pos hw]
            unfold extractStep
            rw [foldl_setcell_apply, if_neg hnotpos]
            exact (hacc r' c').2 hnotin
          · rw [if_neg hw]
            simp only [set_cell_by_index, trans_index_to_row_col]
            rw [if_neg hnotpos]
            exact (hacc r' c').2 hnotin

/-- Pointwise description of the extraction loop: a black cell is copied
from the input, a white cell is the result of the digit scan starting from
the `Str8ts::new()` default `(White, Empty)`. -/
lemma extractGrid_apply (g : Grid) (sol : VarKey → ℚ) (r c : Fin 9) :
    extractGrid g sol r c
      = if (g r c).color = CellColor.White
        then CellValue.listNoEmpty.foldl
            (fun cell v =>
              if 1 / 2 ≤ sol (VarKey.x (r.val * 9 + c.val) v)
              then ⟨CellColor.White, v⟩ else cell) Cell.default
        else g r c := by
  unfold extractGrid
  exact extractGrid_loop g sol (List.finRange 81) str8tsNew
    (List.nodup_finRange 81)
    (fun r' c' => ⟨fun _ => rfl,
      fun hmem => absurd (List.mem_finRange _) hmem⟩) r c

lemma foldl_cell_shape (p : CellValue → Prop) [DecidablePred p]
    (l : List CellValue) (init : Cell) :
    l.foldl (fun cell v => if p v then ⟨CellColor.White, v⟩ else cell) init
        = init
    ∨ ∃ v ∈ l, l.foldl (fun cell v => if p v then ⟨CellColor.White, v⟩ else cell)
        init = ⟨CellColor.White, v⟩ := by
  induction l generalizing init with
  | nil => exact Or.inl rfl
  | cons w t ih =>
      rw [List.foldl_cons]
      by_cases hw : p w
      · rw [if_pos hw]
        rcases ih ⟨CellColor.White, w⟩ with h | ⟨v, hv, h⟩
        · exact Or.inr ⟨w, List.mem_cons_self _ _, h⟩
        · exact Or.inr ⟨v, List.mem_cons_of_mem _ hv, h⟩
      · rw [if_neg hw]
        rcases ih init with h | ⟨v, hv, h⟩
        · exact Or.inl h
        · exact Or.inr ⟨v, List.mem_cons_of_mem _ hv, h⟩

lemma foldl_cell_set (p : CellValue → Prop) [DecidablePred p]
    (l : List CellValue) (init : Cell) (h : ∃ v ∈ l, p v) :
    ∃ v ∈ l, l.foldl (fun cell v => if p v then ⟨CellColor.White, v⟩ else cell)
        init = ⟨CellColor.White, v⟩ := by
  induction l generalizing init with
  | nil => rcases h with ⟨v, hv, _⟩; cases hv
  | cons w t ih =>
      rw [List.foldl_cons]
      by_cases hw : p w
      · rw [if_pos hw]
        rcases foldl_cell_shape p t ⟨CellColor.White, w⟩ with h' | ⟨v, hv, h'⟩
        · exact ⟨w, List.mem_cons_self _ _, h'⟩
        · exact ⟨v, List.mem_cons_of_mem _ hv, h'⟩
      · rw [if_neg hw]
        have h' : ∃ v ∈ t, p v := by
          rcases h with ⟨v, hv, hpv⟩
          rcases List.mem_cons.mp hv with rfl | hv'
          · exact absurd hpv hw
          · exact ⟨v, hv', hpv⟩
        rcases ih init h' with ⟨v, hv, h''⟩
        exact ⟨v, List.mem_cons_of_mem _ hv, h''⟩

lemma foldl_cell_const (p : CellValue → Prop) [DecidablePred p]
    (l : List CellValue) (v : CellValue)
    (hall : ∀ w ∈ l, p w → w = v) :
    l.foldl (fun cell w => if p w then (⟨CellColor.White, w⟩ : Cell) else cell)
        (⟨CellColor.White, v⟩ : Cell) = ⟨CellColor.White, v⟩ := by
  induction l with
  | nil => rfl
  | cons w t ih =>
      rw [List.foldl_cons]
      by_cases hw : p w
      · rw [if_pos hw, hall w (List.mem_cons_self _ _) hw]
        exact ih (fun w' hw' => hall w' (List.mem_cons_of_mem _ hw'))
      · rw [if_neg hw]
        exact ih (fun w' hw' => hall w' (List.mem_cons_of_mem _ hw'))

lemma foldl_cell_unique (p : CellValue → Prop) [DecidablePred p]
    (l : List CellValue) (init : Cell) (v : CellValue) (hv : v ∈ l)
    (hp : p v) (huniq : ∀ w ∈ l, p w → w = v) :
    l.foldl (fun cell w => if p w then ⟨CellColor.White, w⟩ else cell) init
      = ⟨CellColor.White, v⟩ := by
  induction l generalizing init with
  | nil => cases hv
  | cons w t ih =>
      rw [List.foldl_cons]
      by_cases hw : p w
      · rw [if_pos hw, huniq w (List.mem_cons_self _ _) hw]
        exact foldl_cell_const p t v
          (fun w' hw' => huniq w' (List.mem_cons_of_mem _ hw'))
      · rw [if_neg hw]
        have hv' : v ∈ t := by
          rcases List.mem_cons.mp hv with rfl | hv'
          · exact absurd hp hw
          · exact hv'
        exact ih init hv' (fun w' hw' => huniq w' (List.mem_cons_of_mem _ hw'))

lemma mem_listNoEmpty_iff (v : CellValue) :
    v ∈ CellValue.listNoEmpty ↔ v ≠ CellValue.Empty := by
  revert v
  decide

/-- C7: given a feasible assignment, the extracted grid copies every Black
cell unchanged, sets every White cell to the digit whose `x` variable is at
least `0.5`, passes the final non-Empty assertion on white cells, and
reproduces every originally non-Empty White-cell clue unchanged. -/
theorem C7_extraction (g : Grid) (sol : VarKey → ℚ)
    (hbounds : ∀ (i : Fin 81) (v : CellValue), v ∈ CellValue.listNoEmpty →
        (get_cell_by_index g i).color = CellColor.White →
        (xBounds (get_cell_by_index g i) v).1 ≤ sol (VarKey.x i.val v)
        ∧ sol (VarKey.x i.val v) ≤ (xBounds (get_cell_by_index g i) v).2)
    (hone : ∀ i : Fin 81, (get_cell_by_index g i).color = CellColor.White →
        ∃ v ∈ CellValue.listNoEmpty, 1 / 2 ≤ sol (VarKey.x i.val v)
          ∧ ∀ w ∈ CellValue.listNoEmpty,
              1 / 2 ≤ sol (VarKey.x i.val w) → w = v) :
    (∀ r c : Fin 9, (g r c).color = CellColor.Black →
        extractGrid g sol r c = g r c)
    ∧ (∀ r c : Fin 9, (g r c).color = CellColor.White →
        ∀ v ∈ CellValue.listNoEmpty,
          1 / 2 ≤ sol (VarKey.x (r.val * 9 + c.val) v) →
          extractGrid g sol r c = ⟨CellColor.White, v⟩)
    ∧ (∀ r c : Fin 9, (extractGrid g sol r c).color = CellColor.White →
        (extractGrid g sol r c).value ≠ CellValue.Empty)
    ∧ (∀ r c : Fin 9, (g r c).color = CellColor.White →
        (g r c).value ≠ CellValue.Empty →
        extractGrid g sol r c = ⟨CellColor.White, (g r c).value⟩) := by
  have hgc : ∀ r c : Fin 9, get_cell_by_index g (posIdx r c) = g r c :=
    get_cell_by_index_posIdx g
  have hposval : ∀ r c : Fin 9, (posIdx r c).val = r.val * 9 + c.val :=
    fun r c => rfl
  refine ⟨fun r c hb => ?_, fun r c hw v hv hval => ?_, fun r c hwres => ?_,
    fun r c hw hval => ?_⟩
  · rw [extractGrid_apply, if_neg (by rw [hb]; intro h; cases h)]
  · rw [extractGrid_apply, if_pos hw]
    rcases hone (posIdx r c) (by rw [hgc]; exact hw) with
      ⟨v0, hv0, hge0, huniq⟩
    rw [hposval] at hge0 huniq
    have hvv0 : v = v0 := huniq v hv hval
    subst hvv0
    exact foldl_cell_unique _ _ _ v hv0 hge0 huniq
  · rcases hcol : (g r c).color with _ | _
    · -- white input cell
      rw [extractGrid_apply, if_pos hcol] at hwres ⊢
      rcases hone (posIdx r c) (by rw [hgc]; exact hcol) with
        ⟨v0, hv0, hge0, huniq⟩
      rw [hposval] at hge0 huniq
      rw [foldl_cell_unique _ _ _ v0 hv0 hge0 huniq]
      exact (mem_listNoEmpty_iff v0).mp hv0
    · -- black input cell: the extracted cell is the input cell
      rw [extractGrid_apply, if_neg (by rw [hcol]; intro h; cases h)] at hwres
      rw [hcol] at hwres
      cases hwres
  · rw [extractGrid_apply, if_pos hw]
    have hmem : (g r c).value ∈ CellValue.listNoEmpty :=
      (mem_listNoEmpty_iff _).mpr hval
    have hb1 := hbounds (posIdx r c) ((g r c).value) hmem (by rw [hgc]; exact hw)
    rw [hgc, hposval] at hb1
    have hxb : xBounds (g r c) (g r c).value = (1, 1) := by
      simp [xBounds, hval]
    rw [hxb] at hb1
    have hge : 1 / 2 ≤ sol (VarKey.x (r.val * 9 + c.val) (g r c).value) := by
      have := hb1.1
      simp only at this
      linarith
    have huniq : ∀ w ∈ CellValue.listNoEmpty,
        1 / 2 ≤ sol (VarKey.x (r.val * 9 + c.val) w) → w = (g r c).value := by
      intro w hwmem hwge
      by_contra hne
      have hb2 := hbounds (posIdx r c) w hwmem (by rw [hgc]; exact hw)
      rw [hgc, hposval] at hb2
      have hxb2 : xBounds (g r c) w = (0, 0) := by
        have hne' : (g r c).value ≠ w := fun h => hne h.symm
        simp [xBounds, hval, hne']
      rw [hxb2] at hb2
      have := hb2.2
      simp only at this
      linarith
    exact foldl_cell_unique _ _ _ _ hmem hge huniq

lemma solAllOnes_bounds (i : Fin 81) (v : CellValue) :
    (v ∈ CellValue.listNoEmpty →
      (get_cell_by_index str8tsNew i).color = CellColor.White →
      (xBounds (get_cell_by_index str8tsNew i) v).1
          ≤ solAllOnes (VarKey.x i.val v)
      ∧ solAllOnes (VarKey.x i.val v)
          ≤ (xBounds (get_cell_by_index str8tsNew i) v).2) := by
  intro _ _
  have hcell : get_cell_by_index str8tsNew i = Cell.default := rfl
  rw [hcell]
  rcases eq_or_ne v CellValue.One with rfl | hne
  · constructor <;> simp [solAllOnes, xBounds, Cell.default]
  · constructor <;> simp [solAllOnes, xBounds, Cell.default, hne]

lemma solAllOnes_one (i : Fin 81) :
    ∃ v ∈ CellValue.listNoEmpty, 1 / 2 ≤ solAllOnes (VarKey.x i.val v)
      ∧ ∀ w ∈ CellValue.listNoEmpty,
          1 / 2 ≤ solAllOnes (VarKey.x i.val w) → w = v := by
  refine ⟨CellValue.One, by decide, by norm_num [solAllOnes], ?_⟩
  intro w _ hge
  by_contra hne
  have hz : solAllOnes (VarKey.x i.val w) = 0 := by
    simp [solAllOnes, hne]
  rw [hz] at hge
  norm_num at hge

/-- Witness for C7 on the all-white empty grid with the all-ones
assignment: cell `(0,0)` is set to digit 1. -/
theorem C7_extraction_witness :
    extractGrid str8tsNew solAllOnes 0 0 = ⟨CellColor.White, CellValue.One⟩ :=
  (C7_extraction str8tsNew solAllOnes
      (fun i v hv hw => solAllOnes_bounds i v hv hw)
      (fun i _ => solAllOnes_one i)).2.1 0 0 rfl
    CellValue.One (by decide) (by norm_num [solAllOnes])

/-! ## Duplicate black clues and the panic behaviour of `solve` (C6) -/

lemma two_le_countP_of_pair {A : Type} (l : List A) (p : A → Bool)
    (hnd : l.Nodup) {a1 a2 : A} (h1 : a1 ∈ l) (h2 : a2 ∈ l) (hne : a1 ≠ a2)
    (hp1 : p a1 = true) (hp2 : p a2 = true) :
    2 ≤ l.countP p := by
  induction l with
  | nil => cases h1
  | cons b t ih =>
      rw [List.nodup_cons] at hnd
      rw [List.countP_cons]
      rcases List.mem_cons.mp h1 with rfl | h1'
      · have h2' : a2 ∈ t := by
          rcases List.mem_cons.mp h2 with h | h
          · exact absurd h.symm hne
          · exact h
        have hpos : 0 < t.countP p := List.countP_pos_iff.mpr ⟨a2, h2', hp2⟩
        rw [if_pos hp1]
        omega
      · rcases List.mem_cons.mp h2 with rfl | h2'
        · have hpos : 0 < t.countP p := List.countP_pos_iff.mpr ⟨a1, h1', hp1⟩
          rw [if_pos hp2]
          omega
        · have := ih hnd.2 h1' h2'
          by_cases hb : p b = true
          · rw [if_pos hb]; omega
          · rw [if_neg hb]; omega

lemma exists_pair_of_two_le_countP {A : Type} (l : List A) (p : A → Bool)
    (hnd : l.Nodup) (h : 2 ≤ l.countP p) :
    ∃ a1 ∈ l, ∃ a2 ∈ l, a1 ≠ a2 ∧ p a1 = true ∧ p a2 = true := by
  induction l with
  | nil => simp at h
  | cons b t ih =>
      rw [List.countP_cons] at h
      rw [List.nodup_cons] at hnd
      by_cases hb : p b = true
      · rw [if_pos hb] at h
        have h1 : 0 < t.countP p := by omega
        rcases List.countP_pos_iff.mp h1 with ⟨a2, ha2, hpa2⟩
        exact ⟨b, List.mem_cons_self _ _, a2, List.mem_cons_of_mem _ ha2,
          fun e => hnd.1 (e ▸ ha2), hb, hpa2⟩
      · rw [if_neg hb] at h
        have h' : 2 ≤ t.countP p := by omega
        rcases ih hnd.2 h' with ⟨a1, ha1, a2, ha2, hne, hp1, hp2⟩
        exact ⟨a1, List.mem_cons_of_mem _ ha1, a2, List.mem_cons_of_mem _ ha2,
          hne, hp1, hp2⟩

lemma blackValuesLine_dup_iff (cell : Fin 9 → Cell) :
    ¬ (blackValuesLine cell).Nodup ↔
      ∃ j1 j2 : Fin 9, j1 ≠ j2
        ∧ (cell j1).color = CellColor.Black
        ∧ (cell j2).color = CellColor.Black
        ∧ (cell j1).value ≠ CellValue.Empty
        ∧ (cell j1).value = (cell j2).value := by
  have hq : ∀ (v : CellValue) (j : Fin 9),
      ((((if (cell j).color = CellColor.Black
            ∧ (cell j).value ≠ CellValue.Empty
          then some (cell j).value else none).map
            (fun b => b == v)).getD false) = true)
        ↔ ((cell j).color = CellColor.Black
            ∧ (cell j).value ≠ CellValue.Empty ∧ (cell j).value = v) := by
    intro v j
    by_cases hj : (cell j).color = CellColor.Black
        ∧ (cell j).value ≠ CellValue.Empty
    · rw [if_pos hj]
      simp [hj.1, hj.2]
    · rw [if_neg hj]
      constructor
      · intro h
        simp at h
      · rintro ⟨hb, hne, _⟩
        exact absurd ⟨hb, hne⟩ hj
  have hcount : ∀ v : CellValue, (blackValuesLine cell).count v
      = (List.finRange 9).countP (fun j =>
          (((if (cell j).color = CellColor.Black
              ∧ (cell j).value ≠ CellValue.Empty
            then some (cell j).value else none).map
              (fun b => b == v)).getD false)) := by
    intro v
    unfold blackValuesLine
    rw [List.count_eq_countP, List.countP_filterMap]
  constructor
  · intro hnd
    rw [List.nodup_iff_count_le_one] at hnd
    push_neg at hnd
    obtain ⟨v, hv⟩ := hnd
    rw [hcount v] at hv
    have h2le : 2 ≤ (List.finRange 9).countP (fun j =>
        (((if (cell j).color = CellColor.Black
            ∧ (cell j).value ≠ CellValue.Empty
          then some (cell j).value else none).map
            (fun b => b == v)).getD false)) := by
      omega
    rcases exists_pair_of_two_le_countP _ _ (List.nodup_finRange 9)
        h2le with ⟨j1, _, j2, _, hne, hp1, hp2⟩
    rw [hq v j1] at hp1
    rw [hq v j2] at hp2
    exact ⟨j1, j2, hne, hp1.1, hp2.1, hp1.2.1,
      by rw [hp1.2.2, hp2.2.2]⟩
  · rintro ⟨j1, j2, hne, hb1, hb2, hv1, heq⟩ hnd
    have hp1 : (((if (cell j1).color = CellColor.Black
          ∧ (cell j1).value ≠ CellValue.Empty
        then some (cell j1).value else none).map
          (fun b => b == (cell j1).value)).getD false) = true :=
      (hq (cell j1).value j1).mpr ⟨hb1, hv1, rfl⟩
    have hp2 : (((if (cell j2).color = CellColor.Black
          ∧ (cell j2).value ≠ CellValue.Empty
        then some (cell j2).value else none).map
          (fun b => b == (cell j1).value)).getD false) = true :=
      (hq (cell j1).value j2).mpr ⟨hb2, by rw [← heq]; exact hv1, heq.symm⟩
    have h2 : 2 ≤ (List.finRange 9).countP (fun j =>
        (((if (cell j).color = CellColor.Black
            ∧ (cell j).value ≠ CellValue.Empty
          then some (cell j).value else none).map
            (fun b => b == (cell j1).value)).getD false)) :=
      two_le_countP_of_pair _ _ (List.nodup_finRange 9)
        (List.mem_finRange j1) (List.mem_finRange j2) hne hp1 hp2
    have hle := List.nodup_iff_count_le_one.mp hnd (cell j1).value
    rw [hcount] at hle
    omega

lemma dup_iff_checks (g : Grid) :
    hasDuplicateBlackPair g ↔ (duplicateRow g).isSome ∨ (duplicateCol g).isSome := by
  unfold hasDuplicateBlackPair duplicateRow duplicateCol
  rw [List.find?_isSome, List.find?_isSome]
  constructor
  · rintro (⟨r, c1, c2, h1, h2, h3, h4, h5⟩ | ⟨c, r1, r2, h1, h2, h3, h4, h5⟩)
    · left
      refine ⟨r, List.mem_finRange r, ?_⟩
      simp only [Bool.not_eq_true', decide_eq_false_iff_not]
      exact (blackValuesLine_dup_iff _).mpr ⟨c1, c2, h1, h2, h3, h4, h5⟩
    · right
      refine ⟨c, List.mem_finRange c, ?_⟩
      simp only [Bool.not_eq_true', decide_eq_false_iff_not]
      exact (blackValuesLine_dup_iff _).mpr ⟨r1, r2, h1, h2, h3, h4, h5⟩
  · rintro (⟨r, _, hr⟩ | ⟨c, _, hc⟩)
    · left
      simp only [Bool.not_eq_true', decide_eq_false_iff_not] at hr
      rcases (blackValuesLine_dup_iff _).mp hr with ⟨c1, c2, h1, h2, h3, h4, h5⟩
      exact ⟨r, c1, c2, h1, h2, h3, h4, h5⟩
    · right
      simp only [Bool.not_eq_true', decide_eq_false_iff_not] at hc
      rcases (blackValuesLine_dup_iff _).mp hc with ⟨r1, r2, h1, h2, h3, h4, h5⟩
      exact ⟨c, r1, r2, h1, h2, h3, h4, h5⟩

lemma emptyWhiteIndex_extract_none (g : Grid) (sol : VarKey → ℚ)
    (hone : ∀ i : Fin 81, (get_cell_by_index g i).color = CellColor.White →
        ∃ v ∈ CellValue.listNoEmpty, 1 / 2 ≤ sol (VarKey.x i.val v)) :
    emptyWhiteIndex (extractGrid g sol) = none := by
  unfold emptyWhiteIndex
  rw [List.find?_eq_none]
  intro i _
  simp only [decide_eq_true_eq]
  intro hcontra
  have hi81 := i.isLt
  set r : Fin 9 := ⟨i.val / 9, by omega⟩ with hrdef
  set c : Fin 9 := ⟨i.val % 9, by omega⟩ with hcdef
  have hi : posIdx r c = i := Fin.ext (by
    simp only [posIdx, hrdef, hcdef]
    omega)
  have hgb : get_cell_by_index (extractGrid g sol) i = extractGrid g sol r c := by
    rw [← hi, get_cell_by_index_posIdx]
  rw [hgb, extractGrid_apply] at hcontra
  by_cases hw : (g r c).color = CellColor.White
  · rw [if_pos hw] at hcontra
    rcases hone (posIdx r c) (by rw [get_cell_by_index_posIdx]; exact hw) with
      ⟨v, hv, hge⟩
    rcases foldl_cell_set
        (fun w => 1 / 2 ≤ sol (VarKey.x (r.val * 9 + c.val) w))
        CellValue.listNoEmpty Cell.default ⟨v, hv, hge⟩ with ⟨v', hv', hres⟩
    rw [hres] at hcontra
    exact (mem_listNoEmpty_iff v').mp hv' hcontra.2
  · rw [if_neg hw] at hcontra
    exact hw hcontra.1

/-- C6: `solve` panics (with a diagnostic naming the offending row or
column) if and only if some row or column holds two Black cells fixed to
the same non-Empty digit, and such an input never yields the normal `None`
result.  The solver oracle is assumed to assign every white cell some digit
value at least `0.5` when it reports `Optimal`, which constraint 1 forces
for genuine feasible binary assignments. -/
theorem C6_duplicate_black_panic (g : Grid) (sol : VarKey → ℚ)
    (hone : ∀ i : Fin 81, (get_cell_by_index g i).color = CellColor.White →
        ∃ v ∈ CellValue.listNoEmpty, 1 / 2 ≤ sol (VarKey.x i.val v)) :
    ((∃ e, solveModel g (SolveOutcome.optimal sol) = Except.error e)
        ↔ hasDuplicateBlackPair g)
    ∧ ((∃ e, solveModel g SolveOutcome.notOptimal = Except.error e)
        ↔ hasDuplicateBlackPair g)
    ∧ (hasDuplicateBlackPair g → ∀ outcome : SolveOutcome,
        solveModel g outcome ≠ Except.ok none
        ∧ ((∃ r : Fin 9, solveModel g outcome
              = Except.error
                ("There are duplicate values in the black cells of row "
                  ++ toString r.val ++ "!"))
          ∨ (∃ c : Fin 9, solveModel g outcome
              = Except.error
                ("There are duplicate values in the black cells of column "
                  ++ toString c.val ++ "!")))) := by
  have hdup := dup_iff_checks g
  rcases hr : duplicateRow g with _ | r
  · rcases hc : duplicateCol g with _ | c
    · have hnd : ¬ hasDuplicateBlackPair g := by
        rw [hdup, hr, hc]
        simp
      have hopt : solveModel g (SolveOutcome.optimal sol)
          = Except.ok (some (extractGrid g sol)) := by
        simp only [solveModel, hr, hc, emptyWhiteIndex_extract_none g sol hone]
      have hnot : solveModel g SolveOutcome.notOptimal = Except.ok none := by
        simp only [solveModel, hr, hc]
      refine ⟨?_, ?_, fun hd => absurd hd hnd⟩
      · rw [hopt]
        constructor
        · rintro ⟨e, he⟩
          cases he
        · intro hd
          exact absurd hd hnd
      · rw [hnot]
        constructor
        · rintro ⟨e, he⟩
          cases he
        · intro hd
          exact absurd hd hnd
    · have hd : hasDuplicateBlackPair g := by
        rw [hdup, hc]
        simp
      have hsolve : ∀ outcome : SolveOutcome, solveModel g outcome
          = Except.error
            ("There are duplicate values in the black cells of column "
              ++ toString c.val ++ "!") := by
        intro outcome
        simp only [solveModel, hr, hc]
      refine ⟨?_, ?_, fun _ outcome => ⟨?_, Or.inr ⟨c, hsolve outcome⟩⟩⟩
      · rw [hsolve]
        exact ⟨fun _ => hd, fun _ => ⟨_, rfl⟩⟩
      · rw [hsolve]
        exact ⟨fun _ => hd, fun _ => ⟨_, rfl⟩⟩
      · rw [hsolve]
        intro h
        cases h
  · have hd : hasDuplicateBlackPair g := by
      rw [hdup, hr]
      simp
    have hsolve : ∀ outcome : SolveOutcome, solveModel g outcome
        = Except.error
          ("There are duplicate values in the black cells of row "
            ++ toString r.val ++ "!") := by
      intro outcome
      simp only [solveModel, hr]
    refine ⟨?_, ?_, fun _ outcome => ⟨?_, Or.inl ⟨r, hsolve outcome⟩⟩⟩
    · rw [hsolve]
      exact ⟨fun _ => hd, fun _ => ⟨_, rfl⟩⟩
    · rw [hsolve]
      exact ⟨fun _ => hd, fun _ => ⟨_, rfl⟩⟩
    · rw [hsolve]
      intro h
      cases h

/-- Witness for C6: a grid whose row 0 holds two Black cells both fixed to
1 makes `solve` abort with the row diagnostic instead of returning `None`. -/
theorem C6_duplicate_black_panic_witness :
    solveModel gridDupBlack SolveOutcome.notOptimal ≠ Except.ok none
    ∧ ((∃ r : Fin 9, solveModel gridDupBlack SolveOutcome.notOptimal
          = Except.error
            ("There are duplicate values in the black cells of row "
              ++ toString r.val ++ "!"))
      ∨ (∃ c : Fin 9, solveModel gridDupBlack SolveOutcome.notOptimal
          = Except.error
            ("There are duplicate values in the black cells of column "
              ++ toString c.val ++ "!"))) :=
  (C6_duplicate_black_panic gridDupBlack solAllOnes
      (fun i _ => ⟨CellValue.One, by decide, by norm_num [solAllOnes]⟩)).2.2
    (Or.inl ⟨0, 0, 1, by decide, by decide, by decide, by decide, by decide⟩)
    SolveOutcome.notOptimal

end Russtr8ts
